import Mathlib

/-!
Verification of the payload assembly and consistency-checking engine of
`doozer/doozerlib/cli/release_gen_payload.py` (`PayloadGenerator` and the
`release_gen_payload` flow), via a shallow embedding of its data model
and operations as executable Lean definitions.

Python dicts are embedded as insertion-ordered association lists
(`dlookup` / `dinsert`); external collaborators (inspectors) are embedded
as plain records carrying exactly the accessor data the engine reads.
-/

set_option autoImplicit false

universe u

/-- Association-list lookup modelling Python dict indexing / `in`:
returns the value of the first binding for the key (a dict has at most one). -/
def dlookup {β : Type u} (k : String) : List (String × β) → Option β
  | [] => none
  | (k', v) :: rest => if k' = k then some v else dlookup k rest

/-- Association-list update modelling Python dict assignment `d[k] = v`:
replaces the binding in place if the key exists, otherwise appends at the end
(dicts preserve insertion order). -/
def dinsert {β : Type u} (k : String) (v : β) : List (String × β) → List (String × β)
  | [] => [(k, v)]
  | (k', v') :: rest => if k' = k then (k, v) :: rest else (k', v') :: dinsert k v rest

/-- The keys of an association list, in order. -/
def dkeys {β : Type u} (l : List (String × β)) : List String :=
  l.map Prod.fst

/-- `s.replace(":", "-")` for a one-character pattern is a character map. -/
def replaceColonDash (s : String) : String :=
  ⟨s.data.map (fun c => if c = ':' then '-' else c)⟩

/-- Python `'@' in s` (single-character substring containment). -/
def strContainsAt (s : String) : Bool :=
  s.data.any (fun c => c = '@')

/-- Python `s.rsplit('@', 1)[-1]`: everything after the last `'@'`, or the whole
string when there is none. -/
def after_last_at (s : String) : String :=
  ⟨(s.data.reverse.takeWhile (fun c => c ≠ '@')).reverse⟩

/-- Code-point comparison of characters, as Python compares strings. -/
def charLt (a b : Char) : Bool :=
  Nat.blt a.toNat b.toNat

/-- Lexicographic (code-point) ordering on character lists. -/
def charsLe : List Char → List Char → Bool
  | [], _ => true
  | _ :: _, [] => false
  | a :: as, b :: bs => if a = b then charsLe as bs else charLt a b

/-- Python string `<=` (lexicographic on code points). -/
def strLe (a b : String) : Bool :=
  charsLe a.data b.data

/-- Python `s.split("-")` on character lists (`cur` holds the pending field,
reversed). -/
def splitDash (cur : List Char) : List Char → List (List Char)
  | [] => [cur.reverse]
  | c :: cs => if c = '-' then cur.reverse :: splitDash [] cs else splitDash (c :: cur) cs

/-- Data view of `doozerlib.image.ImageMetadata` as read by the engine:
distgit key, payload membership, `get_payload_tag_info()` (tag name and whether
it was explicitly declared) and `get_arches()`. -/
structure ImageMetadata where
  distgit_key : String
  is_payload : Bool
  payload_tag : String
  tag_explicit : Bool
  arches : List String
deriving DecidableEq, Repr

/-- Data accessors of `BrewBuildImageInspector` used by the engine:
`get_nvr()`, `get_source_git_url()`, `get_source_git_commit()`, `is_under_embargo()`. -/
structure BuildInfo where
  nvr : String
  source_git_url : Option String
  source_git_commit : Option String
  embargoed : Bool
deriving DecidableEq, Repr

/-- Data accessors of `ArchiveImageInspector`: `get_archive_id()`,
`get_archive_digest()`, `get_archive_pullspec()`, and the back references
`get_image_meta()` / `get_brew_build_inspector()` (flattened to data). -/
structure ArchiveImageInspector where
  archive_id : Nat
  archive_digest : String
  archive_pullspec : String
  image_meta : ImageMetadata
  brew_build : BuildInfo
deriving DecidableEq, Repr

/-- A brew build (manifest list): its data accessors plus
`get_image_archive_inspector(brew_arch)` embedded as an association list from
brew architecture name to the arch-specific image archive. -/
structure BrewBuildImageInspector where
  info : BuildInfo
  archives : List (String × ArchiveImageInspector)
deriving DecidableEq, Repr

/-- `BrewBuildImageInspector.get_image_archive_inspector(brew_arch)`. -/
def BrewBuildImageInspector.get_image_archive_inspector
    (b : BrewBuildImageInspector) (brew_arch : String) : Option ArchiveImageInspector :=
  dlookup brew_arch b.archives

/-- Data accessors of `RHCOSBuildInspector`: `get_image_pullspec()`,
`get_machine_os_content_digest()`, `get_rpm_nvrs()`. -/
structure RHCOSBuildInspector where
  image_pullspec : String
  machine_os_content_digest : String
  rpm_nvrs : List String
deriving DecidableEq, Repr

/-- Data view of `AssemblyInspector` (plus `runtime.image_map` and
`get_rhcos_build`) as consumed by the engine. `image_map` and `rhcos_build`
are total, matching the source which indexes `runtime.image_map[dgk]` for every
group release image and treats an unresolvable RHCOS build as fatal upstream. -/
structure AssemblyInspector where
  group_release_images : List (String × Option BrewBuildImageInspector)
  image_map : String → ImageMetadata
  rhcos_build : String → RHCOSBuildInspector

/-- `doozerlib.util.brew_arch_for_go_arch` (outside src/): normalizes a
go-architecture name into brew nomenclature; it is the identity on names
already in brew nomenclature, which is how we model it. -/
def brew_arch_for_go_arch (arch : String) : String := arch

/-- `PayloadGenerator.PayloadEntry`: a NamedTuple with a destination pullspec,
accumulated inconsistency strings, optional group-image fields and an optional
RHCOS field. -/
structure PayloadEntry where
  dest_pullspec : String
  inconsistencies : List String
  image_meta : Option ImageMetadata := none
  build_inspector : Option BuildInfo := none
  archive_inspector : Option ArchiveImageInspector := none
  rhcos_build : Option RHCOSBuildInspector := none
deriving DecidableEq, Repr

/-- Python truthiness of an optional string: `None` and `""` are falsy.
Collapses a falsy value to `none`. -/
def truthyStr : Option String → Option String
  | some s => if s = "" then none else some s
  | none => none

/-- The record type local to `find_mismatched_siblings`. -/
structure RepoBuildRecord where
  build_image_inspector : BrewBuildImageInspector
  source_git_commit : String
deriving DecidableEq, Repr

/-- One iteration of the loop in `PayloadGenerator.find_mismatched_siblings`:
state is `(repo_builds, mismatched_siblings)`. -/
def sibling_step (st : List (String × RepoBuildRecord) × List BrewBuildImageInspector)
    (ob : Option BrewBuildImageInspector) :
    List (String × RepoBuildRecord) × List BrewBuildImageInspector :=
  match ob with
  | none => st
  | some b =>
    match truthyStr b.info.source_git_url, truthyStr b.info.source_git_commit with
    | some source_url, some source_git_commit =>
      match dlookup source_url st.1 with
      | some potential_conflict =>
        if potential_conflict.source_git_commit ≠ source_git_commit then
          (st.1, st.2 ++ [potential_conflict.build_image_inspector, b])
        else
          st
      | none =>
        (dinsert source_url ⟨b, source_git_commit⟩ st.1, st.2)
    | _, _ => st

/-- `PayloadGenerator.find_mismatched_siblings`. -/
def find_mismatched_siblings (bs : List (Option BrewBuildImageInspector)) :
    List BrewBuildImageInspector :=
  (bs.foldl sibling_step ([], [])).2

/-- `kobo.rpmlib.parse_nvr(nvr)['name']` (external library): the package name is
everything before the last two dash-separated fields (version and release). -/
def parse_nvr_name (nvr : String) : String :=
  let parts := (splitDash [] nvr.data).map (fun cs => String.mk cs)
  String.intercalate "-" (parts.take (parts.length - 2))

/-- Python `set.add` on a set embedded as an insertion-ordered duplicate-free
list. -/
def nvr_set_add (s : List String) (v : String) : List String :=
  if v ∈ s then s else s ++ [v]

/-- The body of the inner loop of `find_rhcos_build_rpm_inconsistencies`:
`rpm_uses.setdefault(name, set()).add(nvr)`, with the Python `set` embedded as
an insertion-ordered duplicate-free list. -/
def rpm_uses_add (m : List (String × List String)) (nvr : String) :
    List (String × List String) :=
  let rpm_name := parse_nvr_name nvr
  match dlookup rpm_name m with
  | none => dinsert rpm_name (nvr_set_add [] nvr) m
  | some s => dinsert rpm_name (nvr_set_add s nvr) m

/-- An NVR occurs in the installed-RPM list of some build of the set. -/
def nvr_occurs (v : String) (builds : List RHCOSBuildInspector) : Prop :=
  ∃ b, b ∈ builds ∧ v ∈ b.rpm_nvrs

/-- `PayloadGenerator.find_rhcos_build_rpm_inconsistencies`. -/
def find_rhcos_build_rpm_inconsistencies (rhcos_builds : List RHCOSBuildInspector) :
    List (String × List String) :=
  let rpm_uses := rhcos_builds.foldl (fun m b => b.rpm_nvrs.foldl rpm_uses_add m) []
  rpm_uses.filter (fun p => 1 < p.2.length)

/-- `PayloadGenerator.get_mirroring_destination`: content-addressed tag with the
digest's `:` replaced by `-`. -/
def get_mirroring_destination (archive_inspector : ArchiveImageInspector)
    (dest_repo : String) : String :=
  let tag := replaceColonDash archive_inspector.archive_digest
  dest_repo ++ ":" ++ tag

/-- One iteration of the loop in `PayloadGenerator.get_group_payload_tag_mapping`
over `assembly_inspector.get_group_release_images().items()`. -/
def tag_mapping_step (image_map : String → ImageMetadata) (brew_arch arch : String)
    (members : List (String × Option ArchiveImageInspector))
    (item : String × Option BrewBuildImageInspector) :
    List (String × Option ArchiveImageInspector) :=
  match item.2 with
  | none => members
  | some build_inspector =>
    let image_meta := image_map item.1
    if !image_meta.is_payload then members
    else
      let tag_name := image_meta.payload_tag
      let explicit := image_meta.tag_explicit
      if arch ∉ image_meta.arches then dinsert tag_name none members
      else if (dlookup tag_name members).isSome && !explicit then members
      else
        match build_inspector.get_image_archive_inspector brew_arch with
        | none => dinsert tag_name none members
        | some archive_inspector => dinsert tag_name (some archive_inspector) members

/-- `PayloadGenerator.get_group_payload_tag_mapping`. -/
def get_group_payload_tag_mapping (assembly_inspector : AssemblyInspector)
    (arch : String) : List (String × Option ArchiveImageInspector) :=
  let brew_arch := brew_arch_for_go_arch arch
  assembly_inspector.group_release_images.foldl
    (tag_mapping_step assembly_inspector.image_map brew_arch arch) []

/-- The group-image `PayloadEntry` constructed in `find_payload_entries`. -/
def mk_group_payload_entry (dest_repo : String) (a : ArchiveImageInspector) : PayloadEntry :=
  { image_meta := some a.image_meta
    build_inspector := some a.brew_build
    archive_inspector := some a
    dest_pullspec := get_mirroring_destination a dest_repo
    inconsistencies := [] }

/-- The `machine-os-content` `PayloadEntry` constructed in `find_payload_entries`. -/
def mk_rhcos_payload_entry (rhcos : RHCOSBuildInspector) : PayloadEntry :=
  { dest_pullspec := rhcos.image_pullspec
    rhcos_build := some rhcos
    inconsistencies := [] }

/-- `PayloadGenerator.find_payload_entries`. The `IOError` raised when no `pod`
image archive exists becomes `Except.error`. -/
def find_payload_entries (assembly_inspector : AssemblyInspector) (arch : String)
    (dest_repo : String) : Except String (List (String × PayloadEntry)) :=
  let mapping := get_group_payload_tag_mapping assembly_inspector arch
  let members : List (String × Option PayloadEntry) :=
    mapping.foldl (fun m p => dinsert p.1 (p.2.map (mk_group_payload_entry dest_repo)) m) []
  match (dlookup "pod" members).getD none with
  | none =>
    .error ("Unable to find pod image archive for architecture: " ++ arch
      ++ "; unable to construct payload")
  | some pod_entry =>
    let final_members : List (String × PayloadEntry) :=
      members.foldl (fun m p => dinsert p.1 (p.2.getD pod_entry) m) []
    let rhcos := assembly_inspector.rhcos_build arch
    .ok (dinsert "machine-os-content" (mk_rhcos_payload_entry rhcos) final_members)

/-- Ordered insertion into a sorted list of strings (stable: an incoming element
goes before the first element it is not `strLe`-below). -/
def insertSorted (x : String) : List String → List String
  | [] => [x]
  | y :: ys => if strLe x y then x :: y :: ys else y :: insertSorted x ys

/-- Python `sorted` on a list of strings (stable insertion sort under the
lexicographic code-point order). -/
def pySorted (l : List String) : List String :=
  l.foldr insertSorted []

/-- `json.dumps` escaping for one character (backslash and quote; issue strings
contain no control characters). -/
def json_escape_char (c : Char) : List Char :=
  if c = '\\' then ['\\', '\\'] else if c = '\"' then ['\\', '\"'] else [c]

/-- `json.dumps` on a single string. -/
def json_dumps_string (s : String) : String :=
  ⟨'\"' :: s.data.foldr (fun c acc => json_escape_char c ++ acc) ['\"']⟩

/-- `json.dumps` on a list of strings (default separator `", "`). -/
def json_dumps_list (l : List String) : String :=
  "[" ++ String.intercalate ", " (l.map json_dumps_string) ++ "]"

/-- `PayloadGenerator._build_inconsistency_annotation`, returning the annotation
dict: sort, truncate to 5 entries plus a `"(...and more)"` marker when more than
5, and serialize; `{}` when the issue list is empty. -/
def build_inconsistency_annot (inconsistencies : List String) : List (String × String) :=
  if inconsistencies.isEmpty then []
  else
    let sorted := pySorted inconsistencies
    let sorted := if 5 < sorted.length then sorted.take 5 ++ ["(...and more)"] else sorted
    [("release.openshift.io/inconsistency", json_dumps_list sorted)]

/-- An imagestreamtag dict as produced by `build_payload_istag`. -/
structure Istag where
  annotations : List (String × String)
  name : String
  from_kind : String
  from_name : String
deriving DecidableEq, Repr

/-- `PayloadGenerator.build_payload_istag`. -/
def build_payload_istag (payload_tag_name : String) (payload_entry : PayloadEntry) : Istag :=
  { annotations := build_inconsistency_annot payload_entry.inconsistencies
    name := payload_tag_name
    from_kind := "DockerImage"
    from_name := payload_entry.dest_pullspec }

/-- An imagestream dict as produced by `build_payload_imagestream`. -/
structure ImageStream where
  kind : String
  apiVersion : String
  metadata_name : String
  metadata_namespace : String
  annotations : List (String × String)
  tags : List Istag
deriving DecidableEq, Repr

/-- `PayloadGenerator.build_payload_imagestream`. -/
def build_payload_imagestream (imagestream_name imagestream_namespace : String)
    (payload_istags : List Istag) (assembly_wide_inconsistencies : List String) :
    ImageStream :=
  { kind := "ImageStream"
    apiVersion := "image.openshift.io/v1"
    metadata_name := imagestream_name
    metadata_namespace := imagestream_namespace
    annotations := build_inconsistency_annot assembly_wide_inconsistencies
    tags := payload_istags }

/-- Whether the orchestrator's imagestream loop skips a payload entry:
`payload_entry.build_inspector and payload_entry.build_inspector.is_under_embargo()
and private_mode is False`. -/
def istag_filtered_out (e : PayloadEntry) (private_mode : Bool) : Bool :=
  match e.build_inspector with
  | some bi => bi.embargoed && !private_mode
  | none => false

/-- The istag list assembled by the orchestrator (`release_gen_payload`) for one
architecture's entries and one privacy mode. -/
def payload_istags_for_mode (entries : List (String × PayloadEntry))
    (private_mode : Bool) : List Istag :=
  entries.foldl
    (fun istags p =>
      if istag_filtered_out p.2 private_mode then istags
      else istags ++ [build_payload_istag p.1 p.2]) []

/-- `targeted_rhcos_builds` in `release_gen_payload`: initialized to empty lists
for both privacy modes and, per the source, never appended to anywhere in the
per-architecture loop. -/
def targeted_rhcos_builds : Bool → List RHCOSBuildInspector := fun _ => []

/-- The post-loop RHCOS consistency gate of `release_gen_payload`: `true` when
the `IOError('Found RHCOS inconsistencies in builds')` would be raised for some
privacy mode. -/
def rhcos_inconsistency_check_fails (privacy_modes : List Bool) : Bool :=
  privacy_modes.any
    (fun m => !(find_rhcos_build_rpm_inconsistencies (targeted_rhcos_builds m)).isEmpty)

/-- Recursive presentation of the `find_mismatched_siblings` loop: runs
`sibling_step` down the list, returning the final `repo_builds` dict and the
mismatched builds appended by the remaining iterations. -/
def sibling_run (repo : List (String × RepoBuildRecord)) :
    List (Option BrewBuildImageInspector) →
    List (String × RepoBuildRecord) × List BrewBuildImageInspector
  | [] => (repo, [])
  | ob :: rest =>
    let st := sibling_step (repo, []) ob
    let r := sibling_run st.1 rest
    (r.1, st.2 ++ r.2)

/-- The first build in the list that (truthily) claims the given source git URL,
together with its commit: the record `find_mismatched_siblings` keeps in
`repo_builds` for that URL. -/
def first_repo_build (url : String) :
    List (Option BrewBuildImageInspector) → Option RepoBuildRecord
  | [] => none
  | ob :: rest =>
    match ob with
    | none => first_repo_build url rest
    | some b =>
      match truthyStr b.info.source_git_url, truthyStr b.info.source_git_commit with
      | some u, some c =>
        if u = url then some ⟨b, c⟩ else first_repo_build url rest
      | _, _ => first_repo_build url rest

/-- One `spec.tags[]` element of a nightly's release info:
`component_tag.name` and `component_tag['from'].name`. -/
structure NightlyTag where
  name : String
  from_name : String
deriving DecidableEq, Repr

/-- The part of `oc adm release info -o=json` that `_check_nightly_consistency`
reads: `release_info.references.spec.tags`. -/
structure ReleaseInfo where
  tags : List NightlyTag
deriving DecidableEq, Repr

/-- The retry loop of `_check_nightly_consistency`: `exectools.cmd_gather` is
embedded as an oracle from attempt index to its outcome (`none` = nonzero rc);
at most `retries` attempts are made, stopping at the first success. -/
def retry_release_info (fetch : Nat → Option ReleaseInfo) :
    Nat → Nat → Option ReleaseInfo
  | 0, _ => none
  | Nat.succ n, attempt =>
    match fetch attempt with
    | some ri => some ri
    | none => retry_release_info fetch n (attempt + 1)

/-- How many `oc adm release info` attempts the retry loop performs. -/
def release_info_attempts (fetch : Nat → Option ReleaseInfo) : Nat → Nat → Nat
  | 0, attempt => attempt
  | Nat.succ n, attempt =>
    match fetch attempt with
    | some _ => attempt + 1
    | none => release_info_attempts fetch n (attempt + 1)

/-- The per-tag loop of `_check_nightly_consistency`: accumulates soft issue
strings; the `IOError`s raised inside the loop become `Except.error`. -/
def check_release_tags (payload_entries : List (String × PayloadEntry))
    (nightly : String) : List String → List NightlyTag → Except String (List String)
  | issues, [] => .ok issues
  | issues, component_tag :: rest =>
    let payload_tag_name := component_tag.name
    let payload_tag_pullspec := component_tag.from_name
    if !strContainsAt payload_tag_pullspec then
      .error ("Expected pullspec in " ++ nightly ++ ":" ++ payload_tag_name
        ++ " to be sha digest but found invalid: " ++ payload_tag_pullspec)
    else
      let pullspec_sha := after_last_at payload_tag_pullspec
      match dlookup payload_tag_name payload_entries with
      | none =>
        .error ("Did not find " ++ nightly ++ " payload tag " ++ payload_tag_name
          ++ " in computed assembly payload")
      | some entry =>
        match entry.archive_inspector with
        | some a =>
          if a.archive_digest ≠ pullspec_sha then
            check_release_tags payload_entries nightly
              (issues ++ [nightly ++ " contains " ++ payload_tag_name ++ " sha "
                ++ pullspec_sha ++ " but assembly computed archive: "
                ++ toString a.archive_id ++ " and " ++ a.archive_pullspec]) rest
          else check_release_tags payload_entries nightly issues rest
        | none =>
          match entry.rhcos_build with
          | some rhcos =>
            if rhcos.machine_os_content_digest ≠ pullspec_sha then
              check_release_tags payload_entries nightly
                (issues ++ [nightly ++ " contains " ++ payload_tag_name ++ " sha "
                  ++ pullspec_sha ++ " but assembly computed rhcos: "
                  ++ rhcos.image_pullspec ++ " and "
                  ++ rhcos.machine_os_content_digest]) rest
            else check_release_tags payload_entries nightly issues rest
          | none => .error "Unsupported payload entry"

/-- `PayloadGenerator._check_nightly_consistency`. The nightly-name parsing
(`isolate_nightly_name_components` and the major.minor comparison, both relying
on utilities outside src/) is embedded as the boolean `major_minor_matches`, and
the release-controller pullspec derived from the nightly name is passed in as
`pullspec` (it is only used in messages and as the fetch target). -/
def check_nightly_consistency_core (fetch : Nat → Option ReleaseInfo)
    (assembly_inspector : AssemblyInspector) (nightly arch : String)
    (major_minor_matches : Bool) (pullspec : String) : Except String (List String) :=
  if !major_minor_matches then
    .ok ["Specified nightly " ++ nightly ++ " does not match group major.minor"]
  else
    match retry_release_info fetch 3 0 with
    | none =>
      .ok ["Unable to gather nightly release info details: " ++ pullspec
        ++ "; garbage collected?"]
    | some release_info =>
      if release_info.tags.isEmpty then
        .ok ["Could not find tags in nightly " ++ nightly]
      else
        match find_payload_entries assembly_inspector arch "" with
        | .error e => .error e
        | .ok payload_entries => check_release_tags payload_entries nightly [] release_info.tags

/-! Concrete instances used by counterexamples and witnesses. -/

/-- An image meta that declares payload tag `"t"` explicitly and builds only for amd64. -/
def ex_meta_explicit : ImageMetadata := ⟨"alt-img", true, "t", true, ["amd64"]⟩

/-- An image meta with implicit payload tag `"t"` that does not build for amd64. -/
def ex_meta_implicit : ImageMetadata := ⟨"base-img", true, "t", false, ["arm64"]⟩

/-- An image meta with implicit payload tag `"t"` that does build for amd64. -/
def ex_meta_implicit2 : ImageMetadata := ⟨"imp2", true, "t", false, ["amd64"]⟩

def ex_binfo_explicit : BuildInfo := ⟨"alt-img-1-1", some "u", some "c", false⟩

def ex_binfo_implicit : BuildInfo := ⟨"base-img-1-1", some "u2", some "c2", false⟩

def ex_binfo_implicit2 : BuildInfo := ⟨"imp2-1-1", some "u3", some "c3", false⟩

def ex_archive_explicit : ArchiveImageInspector :=
  ⟨1, "sha256:aa", "reg/alt@sha256:aa", ex_meta_explicit, ex_binfo_explicit⟩

def ex_archive_implicit2 : ArchiveImageInspector :=
  ⟨3, "sha256:bb", "reg/imp2@sha256:bb", ex_meta_implicit2, ex_binfo_implicit2⟩

def ex_build_explicit : BrewBuildImageInspector :=
  ⟨ex_binfo_explicit, [("amd64", ex_archive_explicit)]⟩

def ex_build_implicit : BrewBuildImageInspector := ⟨ex_binfo_implicit, []⟩

def ex_build_implicit2 : BrewBuildImageInspector :=
  ⟨ex_binfo_implicit2, [("amd64", ex_archive_implicit2)]⟩

def ex_rhcos : RHCOSBuildInspector := ⟨"rhcos-pull", "sha256:mm", ["foo-1.0-1"]⟩

def ex_image_map : String → ImageMetadata :=
  fun d => if d = "alt-img" then ex_meta_explicit else ex_meta_implicit

/-- Explicit-tag component first, then an implicit component excluded from amd64. -/
def ex_ai_explicit_first : AssemblyInspector :=
  ⟨[("alt-img", some ex_build_explicit), ("base-img", some ex_build_implicit)],
    ex_image_map, fun _ => ex_rhcos⟩

/-- Same two components in the opposite iteration order. -/
def ex_ai_implicit_first : AssemblyInspector :=
  ⟨[("base-img", some ex_build_implicit), ("alt-img", some ex_build_explicit)],
    ex_image_map, fun _ => ex_rhcos⟩

def ex_image_map2 : String → ImageMetadata :=
  fun d => if d = "alt-img" then ex_meta_explicit else ex_meta_implicit2

/-- Explicit and implicit components, both building for amd64: explicit first. -/
def ex_ai_pair_ei : AssemblyInspector :=
  ⟨[("alt-img", some ex_build_explicit), ("imp2", some ex_build_implicit2)],
    ex_image_map2, fun _ => ex_rhcos⟩

/-- Explicit and implicit components, both building for amd64: implicit first. -/
def ex_ai_pair_ie : AssemblyInspector :=
  ⟨[("imp2", some ex_build_implicit2), ("alt-img", some ex_build_explicit)],
    ex_image_map2, fun _ => ex_rhcos⟩

def ex_meta_pod : ImageMetadata := ⟨"pod", true, "pod", false, ["amd64"]⟩

def ex_binfo_pod : BuildInfo := ⟨"pod-1-1", some "up", some "cp", false⟩

def ex_archive_pod : ArchiveImageInspector :=
  ⟨2, "sha256:pp", "reg/pod@sha256:pp", ex_meta_pod, ex_binfo_pod⟩

def ex_build_pod : BrewBuildImageInspector := ⟨ex_binfo_pod, [("amd64", ex_archive_pod)]⟩

/-- A component explicitly claiming the payload tag `machine-os-content`,
not building for amd64. -/
def ex_meta_mosc : ImageMetadata := ⟨"mos", true, "machine-os-content", true, ["arm64"]⟩

def ex_binfo_mosc : BuildInfo := ⟨"mos-1-1", some "um", some "cm", false⟩

def ex_build_mosc : BrewBuildImageInspector := ⟨ex_binfo_mosc, []⟩

def ex_image_map_c2 : String → ImageMetadata :=
  fun d => if d = "pod" then ex_meta_pod else ex_meta_mosc

/-- A pod component plus a component whose tag `machine-os-content` maps to `None`. -/
def ex_ai_c2 : AssemblyInspector :=
  ⟨[("pod", some ex_build_pod), ("mos", some ex_build_mosc)],
    ex_image_map_c2, fun _ => ex_rhcos⟩

def ex_pod_entry_q : PayloadEntry := mk_group_payload_entry "q" ex_archive_pod

def ex_c2_expected : List (String × PayloadEntry) :=
  [("pod", ex_pod_entry_q), ("machine-os-content", mk_rhcos_payload_entry ex_rhcos)]

def ex_image_map_c2b : String → ImageMetadata :=
  fun d => if d = "pod" then ex_meta_pod else ex_meta_implicit

/-- A pod component plus an ordinary component whose tag `"t"` maps to `None`. -/
def ex_ai_c2b : AssemblyInspector :=
  ⟨[("pod", some ex_build_pod), ("base-img", some ex_build_implicit)],
    ex_image_map_c2b, fun _ => ex_rhcos⟩

def ex_pod_entry_empty : PayloadEntry := mk_group_payload_entry "" ex_archive_pod

def ex_m_c2b : List (String × PayloadEntry) :=
  [("pod", ex_pod_entry_empty), ("t", ex_pod_entry_empty),
    ("machine-os-content", mk_rhcos_payload_entry ex_rhcos)]

def ex_sib1 : BrewBuildImageInspector := ⟨⟨"n1", some "u", some "c1", false⟩, []⟩

def ex_sib2 : BrewBuildImageInspector := ⟨⟨"n2", some "u", some "c1", false⟩, []⟩

def ex_sib3 : BrewBuildImageInspector := ⟨⟨"n3", some "u", some "c2", false⟩, []⟩

def ex_rhcos1 : RHCOSBuildInspector := ⟨"p1", "d1", ["foo-1.0-1", "bar-1-1"]⟩

def ex_rhcos2 : RHCOSBuildInspector := ⟨"p2", "d2", ["foo-1.1-1", "bar-1-1"]⟩

def ex_fetch_fail : Nat → Option ReleaseInfo := fun _ => none

def ex_ai_trivial : AssemblyInspector := ⟨[], fun _ => ex_meta_pod, fun _ => ex_rhcos⟩

def ex_ri_nodigest : ReleaseInfo := ⟨[⟨"pod", "nodigest"⟩]⟩

def ex_fetch_nodigest : Nat → Option ReleaseInfo := fun _ => some ex_ri_nodigest

def ex_ri_mismatch : ReleaseInfo := ⟨[⟨"pod", "reg@sha256:zz"⟩]⟩

def ex_fetch_mismatch : Nat → Option ReleaseInfo := fun _ => some ex_ri_mismatch

def ex_entry_embargoed : PayloadEntry :=
  { dest_pullspec := "d1", inconsistencies := [],
    build_inspector := some ⟨"emb-1-1", some "ue", some "ce", true⟩ }

def ex_entry_plain : PayloadEntry :=
  { dest_pullspec := "d2", inconsistencies := [], build_inspector := some ex_binfo_pod }

def ex_entries_c9 : List (String × PayloadEntry) :=
  [("a", ex_entry_embargoed), ("b", ex_entry_plain),
    ("machine-os-content", mk_rhcos_payload_entry ex_rhcos)]

/-- A single payload-eligible component (tag `"t"`) with no build selected. -/
def ex_ai_nobuild : AssemblyInspector :=
  ⟨[("base-img", none)], ex_image_map, fun _ => ex_rhcos⟩

/-- A pod component plus a component with no build selected. -/
def ex_ai_with_nobuild : AssemblyInspector :=
  ⟨[("pod", some ex_build_pod), ("base-img", none)], ex_image_map_c2b, fun _ => ex_rhcos⟩

/-- The same assembly with the no-build component removed. -/
def ex_ai_without_nobuild : AssemblyInspector :=
  ⟨[("pod", some ex_build_pod)], ex_image_map_c2b, fun _ => ex_rhcos⟩

/-- The payload entries of `ex_ai_c2` for amd64 with an empty dest repo (as the
nightly checker computes them). -/
def ex_m_c2_empty : List (String × PayloadEntry) :=
  [("pod", mk_group_payload_entry "" ex_archive_pod),
    ("machine-os-content", mk_rhcos_payload_entry ex_rhcos)]

/-! General lemmas about the association-list dict embedding. -/

theorem dinsert_cons_eq {β : Type u} {k a : String} (v b : β) (l : List (String × β))
    (h : a = k) : dinsert k v ((a, b) :: l) = (k, v) :: l := by
  simp [dinsert, h]

theorem dinsert_cons_ne {β : Type u} {k a : String} (v b : β) (l : List (String × β))
    (h : a ≠ k) : dinsert k v ((a, b) :: l) = (a, b) :: dinsert k v l := by
  simp [dinsert, h]

theorem dlookup_cons_eq {β : Type u} {k a : String} (b : β) (l : List (String × β))
    (h : a = k) : dlookup k ((a, b) :: l) = some b := by
  simp [dlookup, h]

theorem dlookup_cons_ne {β : Type u} {k a : String} (b : β) (l : List (String × β))
    (h : a ≠ k) : dlookup k ((a, b) :: l) = dlookup k l := by
  simp [dlookup, h]

theorem dkeys_cons {β : Type u} (p : String × β) (l : List (String × β)) :
    dkeys (p :: l) = p.1 :: dkeys l := rfl

theorem dlookup_dinsert_self {β : Type u} (k : String) (v : β) (l : List (String × β)) :
    dlookup k (dinsert k v l) = some v := by
  induction l with
  | nil => simp [dinsert, dlookup]
  | cons p rest ih =>
    obtain ⟨a, b⟩ := p
    by_cases h : a = k
    · rw [dinsert_cons_eq v b rest h, dlookup_cons_eq v rest rfl]
    · rw [dinsert_cons_ne v b rest h, dlookup_cons_ne b _ h, ih]

theorem dlookup_dinsert_ne {β : Type u} {k k' : String} (v : β) (l : List (String × β))
    (h : k' ≠ k) : dlookup k (dinsert k' v l) = dlookup k l := by
  induction l with
  | nil => simp [dinsert, dlookup, h]
  | cons p rest ih =>
    obtain ⟨a, b⟩ := p
    by_cases ha : a = k'
    · rw [dinsert_cons_eq v b rest ha, dlookup_cons_ne v rest h,
        dlookup_cons_ne b rest (ha ▸ h)]
    · rw [dinsert_cons_ne v b rest ha]
      by_cases hak : a = k
      · rw [dlookup_cons_eq b _ hak, dlookup_cons_eq b rest hak]
      · rw [dlookup_cons_ne b _ hak, dlookup_cons_ne b rest hak, ih]

theorem mem_dinsert {β : Type u} {k : String} {v : β} {x : String × β} {l : List (String × β)}
    (h : x ∈ dinsert k v l) : x = (k, v) ∨ x ∈ l := by
  induction l with
  | nil =>
    simp only [dinsert, List.mem_singleton] at h
    exact Or.inl h
  | cons p rest ih =>
    obtain ⟨a, b⟩ := p
    by_cases hk : a = k
    · rw [dinsert_cons_eq v b rest hk] at h
      rcases List.mem_cons.mp h with h | h
      · exact Or.inl h
      · exact Or.inr (List.mem_cons_of_mem _ h)
    · rw [dinsert_cons_ne v b rest hk] at h
      rcases List.mem_cons.mp h with h | h
      · exact Or.inr (List.mem_cons.mpr (Or.inl h))
      · rcases ih h with h' | h'
        · exact Or.inl h'
        · exact Or.inr (List.mem_cons_of_mem _ h')

theorem dkeys_dinsert {β : Type u} (k : String) (v : β) (l : List (String × β)) :
    dkeys (dinsert k v l) = if k ∈ dkeys l then dkeys l else dkeys l ++ [k] := by
  induction l with
  | nil => simp [dinsert, dkeys]
  | cons p rest ih =>
    obtain ⟨a, b⟩ := p
    by_cases hk : a = k
    · subst hk
      rw [dinsert_cons_eq v b rest rfl, dkeys_cons, dkeys_cons]
      rw [if_pos (List.mem_cons_self a (dkeys rest))]
    · rw [dinsert_cons_ne v b rest hk, dkeys_cons, ih, dkeys_cons]
      by_cases hm : k ∈ dkeys rest
      · rw [if_pos hm, if_pos (List.mem_cons_of_mem a hm)]
      · have hnc : k ∉ a :: dkeys rest := by
          intro hc
          rcases List.mem_cons.mp hc with hc | hc
          · exact hk hc.symm
          · exact hm hc
        rw [if_neg hm, if_neg hnc, List.cons_append]

theorem nodup_dkeys_dinsert {β : Type u} {k : String} {v : β} {l : List (String × β)}
    (h : (dkeys l).Nodup) : (dkeys (dinsert k v l)).Nodup := by
  rw [dkeys_dinsert]
  by_cases hm : k ∈ dkeys l
  · simpa [hm] using h
  · simp only [if_neg hm]
    simpa [List.nodup_append, hm] using h

theorem dinsert_eq_append {β : Type u} {k : String} (v : β) {l : List (String × β)}
    (h : k ∉ dkeys l) : dinsert k v l = l ++ [(k, v)] := by
  induction l with
  | nil => simp [dinsert]
  | cons p rest ih =>
    obtain ⟨a, b⟩ := p
    have hk : a ≠ k := by
      intro hc
      subst hc
      exact h (List.mem_cons_self _ _)
    have hr : k ∉ dkeys rest := fun hc => h (List.mem_cons_of_mem _ hc)
    rw [dinsert_cons_ne v b rest hk, ih hr, List.cons_append]

theorem dlookup_eq_none {β : Type u} {k : String} {l : List (String × β)}
    (h : k ∉ dkeys l) : dlookup k l = none := by
  induction l with
  | nil => simp [dlookup]
  | cons p rest ih =>
    obtain ⟨a, b⟩ := p
    have hk : a ≠ k := by
      intro hc
      subst hc
      exact h (List.mem_cons_self _ _)
    have hr : k ∉ dkeys rest := fun hc => h (List.mem_cons_of_mem _ hc)
    rw [dlookup_cons_ne b rest hk, ih hr]

theorem dlookup_isSome_iff {β : Type u} (k : String) (l : List (String × β)) :
    (dlookup k l).isSome ↔ k ∈ dkeys l := by
  induction l with
  | nil => simp [dlookup, dkeys]
  | cons p rest ih =>
    obtain ⟨a, b⟩ := p
    by_cases hk : a = k
    · rw [dlookup_cons_eq b rest hk, dkeys_cons]
      simp [hk]
    · rw [dlookup_cons_ne b rest hk, dkeys_cons, ih]
      simp [Ne.symm hk]

theorem dlookup_map {β γ : Type u} (g : β → γ) (k : String) (l : List (String × β)) :
    dlookup k (l.map (fun p => (p.1, g p.2))) = (dlookup k l).map g := by
  induction l with
  | nil => simp [dlookup]
  | cons p rest ih =>
    obtain ⟨a, b⟩ := p
    by_cases hk : a = k
    · rw [List.map_cons]
      rw [dlookup_cons_eq (g b) _ hk, dlookup_cons_eq b rest hk]
      rfl
    · rw [List.map_cons]
      rw [dlookup_cons_ne (g b) _ hk, dlookup_cons_ne b rest hk, ih]

theorem dkeys_map {β γ : Type u} (g : β → γ) (l : List (String × β)) :
    dkeys (l.map (fun p => (p.1, g p.2))) = dkeys l := by
  induction l with
  | nil => rfl
  | cons p rest ih =>
    rw [List.map_cons, dkeys_cons, dkeys_cons, ih]

theorem mem_of_dlookup_eq_some {β : Type u} {k : String} {v : β} {l : List (String × β)}
    (h : dlookup k l = some v) : (k, v) ∈ l := by
  induction l with
  | nil => simp [dlookup] at h
  | cons p rest ih =>
    obtain ⟨a, b⟩ := p
    by_cases hk : a = k
    · subst hk
      rw [dlookup_cons_eq b rest rfl] at h
      injection h with h1
      subst h1
      exact List.mem_cons_self _ _
    · rw [dlookup_cons_ne b rest hk] at h
      exact List.mem_cons_of_mem _ (ih h)

theorem dlookup_eq_some_of_mem {β : Type u} {k : String} {v : β} {l : List (String × β)}
    (hN : (dkeys l).Nodup) (h : (k, v) ∈ l) : dlookup k l = some v := by
  induction l with
  | nil => simp at h
  | cons p rest ih =>
    obtain ⟨a, b⟩ := p
    rw [dkeys_cons] at hN
    have hN2 := List.nodup_cons.mp hN
    rcases List.mem_cons.mp h with h | h
    · injection h with h1 h2
      subst h1
      subst h2
      exact dlookup_cons_eq v rest rfl
    · have hk : a ≠ k := by
        intro hc
        subst hc
        exact hN2.1 (List.mem_map.mpr ⟨(a, v), h, rfl⟩)
      rw [dlookup_cons_ne b rest hk, ih hN2.2 h]

theorem dvalue_unique {β : Type u} {k : String} {v v' : β} {l : List (String × β)}
    (hN : (dkeys l).Nodup) (h : (k, v) ∈ l) (h' : (k, v') ∈ l) : v = v' := by
  have e1 := dlookup_eq_some_of_mem hN h
  have e2 := dlookup_eq_some_of_mem hN h'
  exact Option.some_inj.mp (e1.symm.trans e2)

theorem foldl_dinsert_eq_append {β γ : Type u} (g : β → γ) :
    ∀ (l : List (String × β)) (acc : List (String × γ)),
    (dkeys l).Nodup → (∀ x ∈ dkeys l, x ∉ dkeys acc) →
    l.foldl (fun m p => dinsert p.1 (g p.2) m) acc = acc ++ l.map (fun p => (p.1, g p.2)) := by
  intro l
  induction l with
  | nil =>
    intro acc _ _
    simp
  | cons p rest ih =>
    intro acc hN hd
    obtain ⟨a, b⟩ := p
    rw [dkeys_cons] at hN
    have hN2 := List.nodup_cons.mp hN
    have hin : a ∉ dkeys acc := hd a (List.mem_cons_self _ _)
    rw [List.foldl_cons, List.map_cons]
    have hstep : dinsert a (g b) acc = acc ++ [(a, g b)] := dinsert_eq_append (g b) hin
    rw [hstep]
    rw [ih (acc ++ [(a, g b)]) hN2.2 ?_]
    · rw [List.append_assoc]
      rfl
    · intro x hx
      have hxa : x ≠ a := by
        intro hc
        subst hc
        exact hN2.1 hx
      intro hc
      have : dkeys (acc ++ [(a, g b)]) = dkeys acc ++ [a] := by
        simp [dkeys]
      rw [this] at hc
      rcases List.mem_append.mp hc with hc | hc
      · exact hd x (List.mem_cons_of_mem _ hx) hc
      · exact hxa (List.mem_singleton.mp hc)

theorem foldl_dinsert_eq_map {β γ : Type u} (g : β → γ) (l : List (String × β))
    (hN : (dkeys l).Nodup) :
    l.foldl (fun m p => dinsert p.1 (g p.2) m) [] = l.map (fun p => (p.1, g p.2)) := by
  have := foldl_dinsert_eq_append g l [] hN (by intro x _; simp [dkeys])
  simpa using this

theorem nodup_dkeys_tag_mapping_step (image_map : String → ImageMetadata)
    (brew_arch arch : String) (members : List (String × Option ArchiveImageInspector))
    (item : String × Option BrewBuildImageInspector)
    (h : (dkeys members).Nodup) :
    (dkeys (tag_mapping_step image_map brew_arch arch members item)).Nodup := by
  obtain ⟨dgk, ob⟩ := item
  cases ob with
  | none => exact h
  | some bi =>
    simp only [tag_mapping_step]
    split
    · exact h
    · split
      · exact nodup_dkeys_dinsert h
      · split
        · exact h
        · split
          · exact nodup_dkeys_dinsert h
          · exact nodup_dkeys_dinsert h

theorem nodup_dkeys_foldl_tag_mapping (image_map : String → ImageMetadata)
    (brew_arch arch : String) :
    ∀ (l : List (String × Option BrewBuildImageInspector))
      (m : List (String × Option ArchiveImageInspector)),
    (dkeys m).Nodup →
    (dkeys (l.foldl (tag_mapping_step image_map brew_arch arch) m)).Nodup := by
  intro l
  induction l with
  | nil => intro m h; exact h
  | cons p rest ih =>
    intro m h
    exact ih _ (nodup_dkeys_tag_mapping_step image_map brew_arch arch m p h)

theorem nodup_dkeys_tag_mapping (ai : AssemblyInspector) (arch : String) :
    (dkeys (get_group_payload_tag_mapping ai arch)).Nodup := by
  unfold get_group_payload_tag_mapping
  exact nodup_dkeys_foldl_tag_mapping _ _ _ _ [] List.nodup_nil

theorem tag_mapping_step_implicit_skip (image_map : String → ImageMetadata)
    (brew_arch arch : String) (members : List (String × Option ArchiveImageInspector))
    (dgk : String) (b : BrewBuildImageInspector)
    (hp : (image_map dgk).is_payload = true)
    (ha : arch ∈ (image_map dgk).arches)
    (he : (image_map dgk).tag_explicit = false)
    (hs : (dlookup (image_map dgk).payload_tag members).isSome = true) :
    tag_mapping_step image_map brew_arch arch members (dgk, some b) = members := by
  simp [tag_mapping_step, hp, ha, he, hs]

theorem tag_mapping_step_explicit_wins (image_map : String → ImageMetadata)
    (brew_arch arch : String) (members : List (String × Option ArchiveImageInspector))
    (dgk : String) (b : BrewBuildImageInspector)
    (hp : (image_map dgk).is_payload = true)
    (ha : arch ∈ (image_map dgk).arches)
    (he : (image_map dgk).tag_explicit = true) :
    dlookup (image_map dgk).payload_tag
        (tag_mapping_step image_map brew_arch arch members (dgk, some b))
      = some (b.get_image_archive_inspector brew_arch) := by
  cases hb : b.get_image_archive_inspector brew_arch with
  | none =>
    simp [tag_mapping_step, hp, ha, he, hb, dlookup_dinsert_self]
  | some a =>
    simp [tag_mapping_step, hp, ha, he, hb, dlookup_dinsert_self]

theorem tag_mapping_step_arch_excluded (image_map : String → ImageMetadata)
    (brew_arch arch : String) (members : List (String × Option ArchiveImageInspector))
    (dgk : String) (b : BrewBuildImageInspector)
    (hp : (image_map dgk).is_payload = true)
    (ha : arch ∉ (image_map dgk).arches) :
    dlookup (image_map dgk).payload_tag
        (tag_mapping_step image_map brew_arch arch members (dgk, some b))
      = some none := by
  simp [tag_mapping_step, hp, ha, dlookup_dinsert_self]

/-- C1 counterexample: two payload-eligible components both mapping to tag
`"t"`, the first explicit (with an amd64 archive), the second implicit but not
building for amd64. Iterated explicit-first, the later implicit declaration
replaces the explicit entry with a `None` placeholder; iterated implicit-first,
the tag keeps the explicit component's archive — so the explicit declaration
does not always win regardless of iteration order, and an entry claimed by an
explicit declaration is not permanent. -/
theorem C1_counterexample :
    dlookup "t" (get_group_payload_tag_mapping ex_ai_explicit_first "amd64") = some none ∧
    dlookup "t" (get_group_payload_tag_mapping ex_ai_implicit_first "amd64")
      = some (some ex_archive_explicit) ∧
    get_group_payload_tag_mapping ex_ai_explicit_first "amd64"
      ≠ get_group_payload_tag_mapping ex_ai_implicit_first "amd64" := by
  refine ⟨rfl, rfl, ?_⟩
  decide

/-- C1 (amended): in `get_group_payload_tag_mapping`, among components that
have a build and list the architecture, a later implicit declaration never
replaces an existing entry for its tag, and a later explicit declaration always
installs its own build's archive (replacing implicit and explicit entries
alike); for one explicit and one implicit component that both build for the
architecture, either iteration order yields the explicit component's archive.
However, a component whose arches exclude the architecture unconditionally
records a `None` placeholder over any existing entry, so explicit precedence
holds only among components building for the architecture. -/
theorem C1_explicit_precedence_amended :
    (∀ (image_map : String → ImageMetadata) (brew_arch arch : String)
        (members : List (String × Option ArchiveImageInspector))
        (dgk : String) (b : BrewBuildImageInspector),
      (image_map dgk).is_payload = true →
      arch ∈ (image_map dgk).arches →
      (image_map dgk).tag_explicit = false →
      (dlookup (image_map dgk).payload_tag members).isSome = true →
      tag_mapping_step image_map brew_arch arch members (dgk, some b) = members) ∧
    (∀ (image_map : String → ImageMetadata) (brew_arch arch : String)
        (members : List (String × Option ArchiveImageInspector))
        (dgk : String) (b : BrewBuildImageInspector),
      (image_map dgk).is_payload = true →
      arch ∈ (image_map dgk).arches →
      (image_map dgk).tag_explicit = true →
      dlookup (image_map dgk).payload_tag
          (tag_mapping_step image_map brew_arch arch members (dgk, some b))
        = some (b.get_image_archive_inspector brew_arch)) ∧
    (∀ (image_map : String → ImageMetadata) (brew_arch arch : String)
        (members : List (String × Option ArchiveImageInspector))
        (dgk : String) (b : BrewBuildImageInspector),
      (image_map dgk).is_payload = true →
      arch ∉ (image_map dgk).arches →
      dlookup (image_map dgk).payload_tag
          (tag_mapping_step image_map brew_arch arch members (dgk, some b))
        = some none) ∧
    (∀ (ai1 ai2 : AssemblyInspector) (arch d1 d2 : String)
        (b1 b2 : BrewBuildImageInspector),
      ai1.group_release_images = [(d1, some b1), (d2, some b2)] →
      ai2.group_release_images = [(d2, some b2), (d1, some b1)] →
      ai2.image_map = ai1.image_map →
      (ai1.image_map d1).is_payload = true →
      (ai1.image_map d2).is_payload = true →
      (ai1.image_map d2).payload_tag = (ai1.image_map d1).payload_tag →
      (ai1.image_map d1).tag_explicit = true →
      (ai1.image_map d2).tag_explicit = false →
      arch ∈ (ai1.image_map d1).arches →
      arch ∈ (ai1.image_map d2).arches →
      dlookup (ai1.image_map d1).payload_tag (get_group_payload_tag_mapping ai1 arch)
          = some (b1.get_image_archive_inspector (brew_arch_for_go_arch arch)) ∧
        dlookup (ai1.image_map d1).payload_tag (get_group_payload_tag_mapping ai2 arch)
          = some (b1.get_image_archive_inspector (brew_arch_for_go_arch arch))) := by
  refine ⟨?_, ?_, ?_, ?_⟩
  · intro image_map brew_arch arch members dgk b hp ha he hs
    exact tag_mapping_step_implicit_skip image_map brew_arch arch members dgk b hp ha he hs
  · intro image_map brew_arch arch members dgk b hp ha he
    exact tag_mapping_step_explicit_wins image_map brew_arch arch members dgk b hp ha he
  · intro image_map brew_arch arch members dgk b hp ha
    exact tag_mapping_step_arch_excluded image_map brew_arch arch members dgk b hp ha
  · intro ai1 ai2 arch d1 d2 b1 b2 hg1 hg2 him hp1 hp2 htag he1 he2 ha1 ha2
    constructor
    · rw [get_group_payload_tag_mapping, hg1]
      rw [List.foldl_cons, List.foldl_cons, List.foldl_nil]
      rw [show tag_mapping_step ai1.image_map (brew_arch_for_go_arch arch) arch []
            (d1, some b1)
          = dinsert (ai1.image_map d1).payload_tag
              (b1.get_image_archive_inspector (brew_arch_for_go_arch arch)) [] from ?_]
      · rw [tag_mapping_step_implicit_skip ai1.image_map _ arch _ d2 b2 hp2 ha2 he2 ?_]
        · exact dlookup_dinsert_self _ _ _
        · rw [htag, dlookup_dinsert_self]
          rfl
      · cases hb : b1.get_image_archive_inspector (brew_arch_for_go_arch arch) with
        | none => simp [tag_mapping_step, hp1, ha1, he1, hb]
        | some a => simp [tag_mapping_step, hp1, ha1, he1, hb]
    · rw [get_group_payload_tag_mapping, hg2, him]
      rw [List.foldl_cons, List.foldl_cons, List.foldl_nil]
      have h2 : dlookup (ai1.image_map d1).payload_tag
          (tag_mapping_step ai1.image_map (brew_arch_for_go_arch arch) arch
            (tag_mapping_step ai1.image_map (brew_arch_for_go_arch arch) arch []
              (d2, some b2))
            (d1, some b1))
          = some (b1.get_image_archive_inspector (brew_arch_for_go_arch arch)) :=
        tag_mapping_step_explicit_wins ai1.image_map _ arch _ d1 b1 hp1 ha1 he1
      exact h2

/-- Witness for C1: the amended precedence rules evaluated at the concrete
two-component assemblies. -/
theorem C1_witness :
    dlookup "t" (get_group_payload_tag_mapping ex_ai_pair_ei "amd64")
        = some (some ex_archive_explicit) ∧
      dlookup "t" (get_group_payload_tag_mapping ex_ai_pair_ie "amd64")
        = some (some ex_archive_explicit) := by
  have h := C1_explicit_precedence_amended.2.2.2 ex_ai_pair_ei ex_ai_pair_ie "amd64"
    "alt-img" "imp2" ex_build_explicit ex_build_implicit2 rfl rfl rfl rfl rfl rfl rfl rfl
    (by decide) (by decide)
  exact h

/-- C7 counterexample: a payload-eligible component (`"base-img"`, payload tag
`"t"`) with no build selected for the assembly: `get_group_payload_tag_mapping`
returns the empty map — the component's tag name is not recorded at all, rather
than recorded as an absent placeholder. -/
theorem C7_counterexample :
    get_group_payload_tag_mapping ex_ai_nobuild "amd64" = [] ∧
    dlookup "t" (get_group_payload_tag_mapping ex_ai_nobuild "amd64") = none := by
  exact ⟨rfl, rfl⟩

/-- C7 (amended): a payload-eligible component with no build selected for the
assembly is skipped entirely by `get_group_payload_tag_mapping`: the iteration
leaves the map unchanged, and the mapping equals the one computed without that
component, so its tag appears only if another component contributes it (`None`
placeholders arise only from components that have a build). The function itself
is total, so the run does not abort at this stage. -/
theorem C7_no_build_amended :
    (∀ (image_map : String → ImageMetadata) (brew_arch arch dgk : String)
        (members : List (String × Option ArchiveImageInspector)),
      tag_mapping_step image_map brew_arch arch members (dgk, none) = members) ∧
    (∀ (ai ai' : AssemblyInspector) (arch dgk : String)
        (l1 l2 : List (String × Option BrewBuildImageInspector)),
      ai.image_map = ai'.image_map →
      ai.group_release_images = l1 ++ (dgk, none) :: l2 →
      ai'.group_release_images = l1 ++ l2 →
      get_group_payload_tag_mapping ai arch = get_group_payload_tag_mapping ai' arch) := by
  constructor
  · intro image_map brew_arch arch dgk members
    rfl
  · intro ai ai' arch dgk l1 l2 him hg hg'
    rw [get_group_payload_tag_mapping, get_group_payload_tag_mapping, hg, hg', him]
    rw [List.foldl_append, List.foldl_append, List.foldl_cons]
    rfl

/-- Witness for C7: dropping the build-less component leaves the concrete
mapping unchanged. -/
theorem C7_witness :
    get_group_payload_tag_mapping ex_ai_with_nobuild "amd64"
      = get_group_payload_tag_mapping ex_ai_without_nobuild "amd64" :=
  C7_no_build_amended.2 ex_ai_with_nobuild ex_ai_without_nobuild "amd64" "base-img"
    [("pod", some ex_build_pod)] [] rfl rfl rfl

theorem find_payload_entries_ok (ai : AssemblyInspector) (arch dest_repo : String)
    (a : ArchiveImageInspector)
    (h : dlookup "pod" (get_group_payload_tag_mapping ai arch) = some (some a)) :
    find_payload_entries ai arch dest_repo =
      .ok (dinsert "machine-os-content" (mk_rhcos_payload_entry (ai.rhcos_build arch))
        ((get_group_payload_tag_mapping ai arch).map
          (fun p => (p.1, (p.2.map (mk_group_payload_entry dest_repo)).getD
            (mk_group_payload_entry dest_repo a))))) := by
  have hN : (dkeys (get_group_payload_tag_mapping ai arch)).Nodup :=
    nodup_dkeys_tag_mapping ai arch
  rw [find_payload_entries]
  rw [foldl_dinsert_eq_map (fun o => o.map (mk_group_payload_entry dest_repo)) _ hN]
  rw [dlookup_map, h]
  simp only [Option.map_some', Option.getD_some]
  have hN2 : (dkeys ((get_group_payload_tag_mapping ai arch).map
      (fun p => (p.1, p.2.map (mk_group_payload_entry dest_repo))))).Nodup := by
    rw [dkeys_map]
    exact hN
  rw [foldl_dinsert_eq_map (fun o => o.getD (mk_group_payload_entry dest_repo a)) _ hN2]
  rw [List.map_map]
  rfl

theorem find_payload_entries_error_iff (ai : AssemblyInspector) (arch dest_repo : String) :
    (∃ msg, find_payload_entries ai arch dest_repo = .error msg) ↔
      (dlookup "pod" (get_group_payload_tag_mapping ai arch)).getD none = none := by
  cases hpod : dlookup "pod" (get_group_payload_tag_mapping ai arch) with
  | none =>
    have hN : (dkeys (get_group_payload_tag_mapping ai arch)).Nodup :=
      nodup_dkeys_tag_mapping ai arch
    rw [find_payload_entries]
    rw [foldl_dinsert_eq_map (fun o => o.map (mk_group_payload_entry dest_repo)) _ hN]
    rw [dlookup_map, hpod]
    simp
  | some oa =>
    cases oa with
    | none =>
      have hN : (dkeys (get_group_payload_tag_mapping ai arch)).Nodup :=
        nodup_dkeys_tag_mapping ai arch
      rw [find_payload_entries]
      rw [foldl_dinsert_eq_map (fun o => o.map (mk_group_payload_entry dest_repo)) _ hN]
      rw [dlookup_map, hpod]
      simp
    | some a =>
      rw [find_payload_entries_ok ai arch dest_repo a hpod]
      simp

/-- C2 counterexample: in `ex_ai_c2` a component explicitly declares the
payload tag `machine-os-content` and does not build for amd64, so the group
mapping carries `machine-os-content ↦ None`; yet the returned entry for that
tag is the RHCOS entry, not the pod entry, and its destination pullspec
differs from pod's — the pod substitution does not hold for every
`None`-mapped tag. -/
theorem C2_counterexample :
    dlookup "machine-os-content" (get_group_payload_tag_mapping ex_ai_c2 "amd64")
        = some none ∧
    find_payload_entries ex_ai_c2 "amd64" "q" = .ok ex_c2_expected ∧
    dlookup "machine-os-content" ex_c2_expected
        = some (mk_rhcos_payload_entry ex_rhcos) ∧
    dlookup "pod" ex_c2_expected = some ex_pod_entry_q ∧
    (mk_rhcos_payload_entry ex_rhcos).dest_pullspec ≠ ex_pod_entry_q.dest_pullspec := by
  refine ⟨rfl, rfl, rfl, rfl, ?_⟩
  decide

/-- C2 (amended): `find_payload_entries` raises a fatal error if and only if
the `pod` tag has no real archive for the architecture (absent from the group
mapping or mapped to `None`); when it returns, every tag other than
`machine-os-content` whose mapping is `None` gets exactly the pod entry (the
same entry, hence the same destination pullspec), while a `machine-os-content`
tag is unconditionally overwritten by the RHCOS entry. -/
theorem C2_find_payload_entries_amended :
    (∀ (ai : AssemblyInspector) (arch dest_repo : String),
      (∃ msg, find_payload_entries ai arch dest_repo = .error msg) ↔
        (dlookup "pod" (get_group_payload_tag_mapping ai arch)).getD none = none) ∧
    (∀ (ai : AssemblyInspector) (arch dest_repo t : String)
        (m : List (String × PayloadEntry)),
      find_payload_entries ai arch dest_repo = .ok m →
      t ≠ "machine-os-content" →
      dlookup t (get_group_payload_tag_mapping ai arch) = some none →
      dlookup t m = dlookup "pod" m ∧
        ∃ a, dlookup "pod" (get_group_payload_tag_mapping ai arch) = some (some a) ∧
          dlookup t m = some (mk_group_payload_entry dest_repo a)) := by
  constructor
  · exact find_payload_entries_error_iff
  · intro ai arch dest_repo t m hok ht hmap
    have hpod : ∃ a, dlookup "pod" (get_group_payload_tag_mapping ai arch)
        = some (some a) := by
      cases hpod : dlookup "pod" (get_group_payload_tag_mapping ai arch) with
      | none =>
        have := (find_payload_entries_error_iff ai arch dest_repo).mpr (by rw [hpod]; rfl)
        obtain ⟨msg, hmsg⟩ := this
        rw [hok] at hmsg
        exact absurd hmsg (by simp)
      | some oa =>
        cases oa with
        | none =>
          have := (find_payload_entries_error_iff ai arch dest_repo).mpr (by rw [hpod]; rfl)
          obtain ⟨msg, hmsg⟩ := this
          rw [hok] at hmsg
          exact absurd hmsg (by simp)
        | some a => exact ⟨a, rfl⟩
    obtain ⟨a, ha⟩ := hpod
    have hm := find_payload_entries_ok ai arch dest_repo a ha
    rw [hok] at hm
    have hm2 : m = dinsert "machine-os-content"
        (mk_rhcos_payload_entry (ai.rhcos_build arch))
        ((get_group_payload_tag_mapping ai arch).map
          (fun p => (p.1, (p.2.map (mk_group_payload_entry dest_repo)).getD
            (mk_group_payload_entry dest_repo a)))) := by
      injection hm with hm3
    have hpodne : ("machine-os-content" : String) ≠ "pod" := by decide
    have hlt : dlookup t m = some (mk_group_payload_entry dest_repo a) := by
      rw [hm2, dlookup_dinsert_ne _ _ (Ne.symm ht)]
      rw [dlookup_map (fun o : Option ArchiveImageInspector =>
        (Option.map (mk_group_payload_entry dest_repo) o).getD
          (mk_group_payload_entry dest_repo a)) t, hmap]
      rfl
    have hlp : dlookup "pod" m = some (mk_group_payload_entry dest_repo a) := by
      rw [hm2, dlookup_dinsert_ne _ _ hpodne]
      rw [dlookup_map (fun o : Option ArchiveImageInspector =>
        (Option.map (mk_group_payload_entry dest_repo) o).getD
          (mk_group_payload_entry dest_repo a)) "pod", ha]
      rfl
    exact ⟨hlt.trans hlp.symm, a, ha, hlt⟩

/-- Witness for C2: in the concrete assembly `ex_ai_c2b` the tag `"t"` maps to
`None` and its returned entry is exactly the pod entry. -/
theorem C2_witness :
    dlookup "t" ex_m_c2b = dlookup "pod" ex_m_c2b :=
  (C2_find_payload_entries_amended.2 ex_ai_c2b "amd64" "" "t" ex_m_c2b rfl
    (by decide) rfl).1

/-- C10: whenever `find_payload_entries` returns a map, that map binds
`machine-os-content` to the RHCOS-backed entry (rhcos_build set,
archive_inspector unset, destination pullspec equal to the RHCOS build's own
image pullspec), unconditionally overwriting any group-component claim on that
tag (the map's keys are unique, so this is the only binding); and every entry
under any other tag has archive_inspector set and rhcos_build unset — exactly
one of the two variants, never both, never neither. -/
theorem C10_machine_os_content_invariant :
    ∀ (ai : AssemblyInspector) (arch dest_repo : String)
      (m : List (String × PayloadEntry)),
      find_payload_entries ai arch dest_repo = .ok m →
      (dlookup "machine-os-content" m
          = some (mk_rhcos_payload_entry (ai.rhcos_build arch)) ∧
        (mk_rhcos_payload_entry (ai.rhcos_build arch)).rhcos_build
          = some (ai.rhcos_build arch) ∧
        (mk_rhcos_payload_entry (ai.rhcos_build arch)).archive_inspector = none ∧
        (mk_rhcos_payload_entry (ai.rhcos_build arch)).dest_pullspec
          = (ai.rhcos_build arch).image_pullspec) ∧
      (dkeys m).Nodup ∧
      (∀ t e, (t, e) ∈ m → t ≠ "machine-os-content" →
        e.rhcos_build = none ∧ ∃ a2, e.archive_inspector = some a2) := by
  intro ai arch dest_repo m hok
  have hpod : ∃ a, dlookup "pod" (get_group_payload_tag_mapping ai arch)
      = some (some a) := by
    cases hpod : dlookup "pod" (get_group_payload_tag_mapping ai arch) with
    | none =>
      obtain ⟨msg, hmsg⟩ :=
        (find_payload_entries_error_iff ai arch dest_repo).mpr (by rw [hpod]; rfl)
      rw [hok] at hmsg
      exact absurd hmsg (by simp)
    | some oa =>
      cases oa with
      | none =>
        obtain ⟨msg, hmsg⟩ :=
          (find_payload_entries_error_iff ai arch dest_repo).mpr (by rw [hpod]; rfl)
        rw [hok] at hmsg
        exact absurd hmsg (by simp)
      | some a => exact ⟨a, rfl⟩
  obtain ⟨a, ha⟩ := hpod
  have hm := find_payload_entries_ok ai arch dest_repo a ha
  rw [hok] at hm
  have hm2 : m = dinsert "machine-os-content"
      (mk_rhcos_payload_entry (ai.rhcos_build arch))
      ((get_group_payload_tag_mapping ai arch).map
        (fun p => (p.1, (p.2.map (mk_group_payload_entry dest_repo)).getD
          (mk_group_payload_entry dest_repo a)))) := by
    injection hm with hm3
  refine ⟨⟨?_, rfl, rfl, rfl⟩, ?_, ?_⟩
  · rw [hm2]
    exact dlookup_dinsert_self _ _ _
  · rw [hm2]
    apply nodup_dkeys_dinsert
    rw [dkeys_map (fun o : Option ArchiveImageInspector =>
      (Option.map (mk_group_payload_entry dest_repo) o).getD
        (mk_group_payload_entry dest_repo a))]
    exact nodup_dkeys_tag_mapping ai arch
  · intro t e hmem ht
    rw [hm2] at hmem
    rcases mem_dinsert hmem with hx | hx
    · exact absurd (congrArg Prod.fst hx) ht
    · obtain ⟨p, hp, hpe⟩ := List.mem_map.mp hx
      have he : e = (p.2.map (mk_group_payload_entry dest_repo)).getD
          (mk_group_payload_entry dest_repo a) := (congrArg Prod.snd hpe).symm
      cases hp2 : p.2 with
      | none =>
        rw [hp2] at he
        rw [he]
        exact ⟨rfl, a, rfl⟩
      | some a2 =>
        rw [hp2] at he
        rw [he]
        exact ⟨rfl, a2, rfl⟩

/-- Witness for C10: the invariant evaluated on the concrete assembly
`ex_ai_c2`. -/
theorem C10_witness :
    dlookup "machine-os-content" ex_c2_expected
        = some (mk_rhcos_payload_entry ex_rhcos) ∧
      (dkeys ex_c2_expected).Nodup :=
  ⟨(C10_machine_os_content_invariant ex_ai_c2 "amd64" "q" ex_c2_expected rfl).1.1,
    (C10_machine_os_content_invariant ex_ai_c2 "amd64" "q" ex_c2_expected rfl).2.1⟩

theorem payload_istags_foldl (private_mode : Bool) :
    ∀ (entries : List (String × PayloadEntry)) (acc : List Istag),
    entries.foldl
        (fun istags p =>
          if istag_filtered_out p.2 private_mode then istags
          else istags ++ [build_payload_istag p.1 p.2]) acc
      = acc ++ (entries.filter (fun p => !istag_filtered_out p.2 private_mode)).map
          (fun p => build_payload_istag p.1 p.2) := by
  intro entries
  induction entries with
  | nil => intro acc; simp
  | cons p rest ih =>
    intro acc
    rw [List.foldl_cons]
    cases hf : istag_filtered_out p.2 private_mode with
    | true =>
      rw [if_pos rfl, ih acc, List.filter_cons_of_neg (by simp [hf])]
    | false =>
      rw [if_neg (by simp), ih (acc ++ [build_payload_istag p.1 p.2]),
        List.filter_cons_of_pos (by simp [hf]), List.map_cons, List.append_assoc]
      rfl

theorem istag_filtered_out_private (e : PayloadEntry) :
    istag_filtered_out e true = false := by
  unfold istag_filtered_out
  cases e.build_inspector with
  | none => rfl
  | some bi => simp

theorem payload_istags_for_mode_eq (entries : List (String × PayloadEntry))
    (private_mode : Bool) :
    payload_istags_for_mode entries private_mode
      = (entries.filter (fun p => !istag_filtered_out p.2 private_mode)).map
          (fun p => build_payload_istag p.1 p.2) := by
  unfold payload_istags_for_mode
  rw [payload_istags_foldl private_mode entries []]
  rfl

/-- C9: for any per-architecture entry set, the private-mode imagestream
carries an istag for every payload entry, the public variant carries exactly
the istags of entries that are not embargoed-and-build-backed, an
embargoed-build entry's istag never appears in the public variant (keys being
unique, as they are for `find_payload_entries` output), an entry without a
build inspector (e.g. the RHCOS entry) is never filtered out of the public
variant, and `build_payload_imagestream` embeds exactly the given istags. -/
theorem C9_embargo_filtering :
    (∀ entries : List (String × PayloadEntry),
      payload_istags_for_mode entries true
        = entries.map (fun p => build_payload_istag p.1 p.2)) ∧
    (∀ entries : List (String × PayloadEntry),
      payload_istags_for_mode entries false
        = (entries.filter (fun p => !istag_filtered_out p.2 false)).map
            (fun p => build_payload_istag p.1 p.2)) ∧
    (∀ (entries : List (String × PayloadEntry)) (t : String) (e : PayloadEntry)
        (bi : BuildInfo),
      (dkeys entries).Nodup → (t, e) ∈ entries → e.build_inspector = some bi →
      bi.embargoed = true →
      build_payload_istag t e ∉ payload_istags_for_mode entries false) ∧
    (∀ (entries : List (String × PayloadEntry)) (t : String) (e : PayloadEntry),
      (t, e) ∈ entries → e.build_inspector = none →
      build_payload_istag t e ∈ payload_istags_for_mode entries false) ∧
    (∀ (entries : List (String × PayloadEntry)) (t : String) (e : PayloadEntry),
      (t, e) ∈ entries →
      build_payload_istag t e ∈ payload_istags_for_mode entries true) ∧
    (∀ (n ns : String) (istags : List Istag) (issues : List String),
      (build_payload_imagestream n ns istags issues).tags = istags) := by
  refine ⟨?_, ?_, ?_, ?_, ?_, ?_⟩
  · intro entries
    rw [payload_istags_for_mode_eq]
    congr 1
    apply List.filter_eq_self.mpr
    intro p _
    simp [istag_filtered_out_private]
  · intro entries
    exact payload_istags_for_mode_eq entries false
  · intro entries t e bi hN hmem hbi hemb hcontra
    rw [payload_istags_for_mode_eq] at hcontra
    obtain ⟨p, hp, hpe⟩ := List.mem_map.mp hcontra
    have hpf := List.of_mem_filter hp
    have hpm := List.mem_of_mem_filter hp
    have hname : p.1 = t := congrArg Istag.name hpe
    have hpe2 : p.2 = e := by
      apply dvalue_unique hN ?_ hmem
      rw [← hname]
      exact hpm
    rw [hpe2] at hpf
    simp only [istag_filtered_out, hbi, hemb, Bool.not_eq_true'] at hpf
    simp at hpf
  · intro entries t e hmem hbi
    rw [payload_istags_for_mode_eq]
    apply List.mem_map.mpr
    refine ⟨(t, e), ?_, rfl⟩
    apply List.mem_filter.mpr
    refine ⟨hmem, ?_⟩
    simp [istag_filtered_out, hbi]
  · intro entries t e hmem
    rw [payload_istags_for_mode_eq]
    apply List.mem_map.mpr
    refine ⟨(t, e), ?_, rfl⟩
    apply List.mem_filter.mpr
    exact ⟨hmem, by simp [istag_filtered_out_private]⟩
  · intro n ns istags issues
    rfl

/-- Witness for C9: evaluated on a concrete entry set containing an embargoed
entry, a plain entry and an RHCOS entry. -/
theorem C9_witness :
    build_payload_istag "a" ex_entry_embargoed
        ∉ payload_istags_for_mode ex_entries_c9 false ∧
      build_payload_istag "machine-os-content" (mk_rhcos_payload_entry ex_rhcos)
        ∈ payload_istags_for_mode ex_entries_c9 false ∧
      build_payload_istag "a" ex_entry_embargoed
        ∈ payload_istags_for_mode ex_entries_c9 true := by
  refine ⟨?_, ?_, ?_⟩
  · exact C9_embargo_filtering.2.2.1 ex_entries_c9 "a" ex_entry_embargoed
      ⟨"emb-1-1", some "ue", some "ce", true⟩ (by decide) (by decide) rfl rfl
  · exact C9_embargo_filtering.2.2.2.1 ex_entries_c9 "machine-os-content"
      (mk_rhcos_payload_entry ex_rhcos) (by decide) rfl
  · exact C9_embargo_filtering.2.2.2.2.1 ex_entries_c9 "a" ex_entry_embargoed (by decide)

theorem insertSorted_length (x : String) (l : List String) :
    (insertSorted x l).length = l.length + 1 := by
  induction l with
  | nil => rfl
  | cons y ys ih =>
    unfold insertSorted
    by_cases h : strLe x y
    · simp [h]
    · simp [h, ih]

theorem pySorted_length (l : List String) : (pySorted l).length = l.length := by
  induction l with
  | nil => rfl
  | cons x xs ih =>
    unfold pySorted at ih ⊢
    rw [List.foldr_cons, insertSorted_length, ih]
    rfl

/-- C4: on an empty issue list `_build_inconsistency_annotation` returns an
empty dict (no annotation key at all); on a non-empty list it returns a single
annotation whose value serializes the sorted issue list truncated to its first
5 entries, with the literal `"(...and more)"` marker appended exactly when more
than 5 issues were given (so 7 issues yield the first 5 plus the marker, never
all 7). -/
theorem C4_inconsistency_annot_truncation :
    ∀ l : List String,
      (l = [] → build_inconsistency_annot l = []) ∧
      (l ≠ [] → build_inconsistency_annot l =
        [("release.openshift.io/inconsistency",
          json_dumps_list ((pySorted l).take 5 ++
            (if 5 < l.length then ["(...and more)"] else [])))]) := by
  intro l
  constructor
  · intro h
    subst h
    rfl
  · intro h
    unfold build_inconsistency_annot
    rw [if_neg (by simpa using h)]
    simp only [pySorted_length]
    by_cases h5 : 5 < l.length
    · rw [if_pos h5, if_pos h5]
    · rw [if_neg h5, if_neg h5]
      rw [List.take_of_length_le (by rw [pySorted_length]; omega), List.append_nil]

/-- Witness for C4: seven issue strings yield the first five sorted entries
plus the truncation marker. -/
theorem C4_witness :
    build_inconsistency_annot ["g", "b", "a", "c", "e", "f", "d"]
      = [("release.openshift.io/inconsistency",
          json_dumps_list ((pySorted ["g", "b", "a", "c", "e", "f", "d"]).take 5 ++
            ["(...and more)"]))] := by
  have h := (C4_inconsistency_annot_truncation ["g", "b", "a", "c", "e", "f", "d"]).2
    (by decide)
  rw [h]
  norm_num

/-- C6 (code bug): `targeted_rhcos_builds` is initialized empty and never
appended to in the per-architecture loop, so the post-loop RHCOS cross-build
RPM-consistency gate always checks empty build lists and can never raise — even
though `find_rhcos_build_rpm_inconsistencies` itself would flag divergent
builds such as `ex_rhcos1` and `ex_rhcos2` (rpm `foo` at two NVRs). -/
theorem C6_rhcos_gate_never_fails :
    (∀ privacy_modes : List Bool,
      rhcos_inconsistency_check_fails privacy_modes = false) ∧
    find_rhcos_build_rpm_inconsistencies [] = [] ∧
    find_rhcos_build_rpm_inconsistencies [ex_rhcos1, ex_rhcos2]
      = [("foo", ["foo-1.0-1", "foo-1.1-1"])] := by
  refine ⟨?_, rfl, rfl⟩
  intro privacy_modes
  simp [rhcos_inconsistency_check_fails, targeted_rhcos_builds,
    find_rhcos_build_rpm_inconsistencies]

theorem sibling_run_cons (repo : List (String × RepoBuildRecord))
    (ob : Option BrewBuildImageInspector) (rest : List (Option BrewBuildImageInspector)) :
    sibling_run repo (ob :: rest)
      = ((sibling_run (sibling_step (repo, []) ob).1 rest).1,
        (sibling_step (repo, []) ob).2
          ++ (sibling_run (sibling_step (repo, []) ob).1 rest).2) := rfl

theorem sibling_step_acc (repo : List (String × RepoBuildRecord))
    (acc : List BrewBuildImageInspector) (ob : Option BrewBuildImageInspector) :
    sibling_step (repo, acc) ob
      = ((sibling_step (repo, []) ob).1, acc ++ (sibling_step (repo, []) ob).2) := by
  cases ob with
  | none => simp [sibling_step]
  | some b =>
    simp only [sibling_step]
    cases hu : truthyStr b.info.source_git_url with
    | none => simp
    | some u =>
      cases hc : truthyStr b.info.source_git_commit with
      | none => simp
      | some c =>
        cases hl : dlookup u repo with
        | none => simp [hl]
        | some pc =>
          by_cases hne : pc.source_git_commit = c
          · simp [hl, hne]
          · simp [hl, hne]

theorem foldl_sibling_run :
    ∀ (l : List (Option BrewBuildImageInspector))
      (repo : List (String × RepoBuildRecord)) (acc : List BrewBuildImageInspector),
    l.foldl sibling_step (repo, acc)
      = ((sibling_run repo l).1, acc ++ (sibling_run repo l).2) := by
  intro l
  induction l with
  | nil =>
    intro repo acc
    simp [sibling_run]
  | cons ob rest ih =>
    intro repo acc
    rw [List.foldl_cons, sibling_step_acc, ih, sibling_run_cons]
    rw [List.append_assoc]

theorem find_mismatched_siblings_eq_run (bs : List (Option BrewBuildImageInspector)) :
    find_mismatched_siblings bs = (sibling_run [] bs).2 := by
  unfold find_mismatched_siblings
  rw [foldl_sibling_run bs [] []]
  simp

theorem sibling_run_append :
    ∀ (l1 l2 : List (Option BrewBuildImageInspector))
      (repo : List (String × RepoBuildRecord)),
    sibling_run repo (l1 ++ l2)
      = ((sibling_run (sibling_run repo l1).1 l2).1,
        (sibling_run repo l1).2 ++ (sibling_run (sibling_run repo l1).1 l2).2) := by
  intro l1
  induction l1 with
  | nil =>
    intro l2 repo
    simp [sibling_run]
  | cons ob rest ih =>
    intro l2 repo
    rw [List.cons_append, sibling_run_cons, ih l2 (sibling_step (repo, []) ob).1,
      sibling_run_cons, List.append_assoc]

theorem sibling_step_conflict (repo : List (String × RepoBuildRecord))
    (b : BrewBuildImageInspector) (u c : String) (f : RepoBuildRecord)
    (hu : truthyStr b.info.source_git_url = some u)
    (hc : truthyStr b.info.source_git_commit = some c)
    (hl : dlookup u repo = some f) (hne : f.source_git_commit ≠ c) :
    sibling_step (repo, []) (some b) = (repo, [f.build_image_inspector, b]) := by
  simp [sibling_step, hu, hc, hl, hne]

theorem dlookup_sibling_run_some (u : String) (r : RepoBuildRecord) :
    ∀ (l : List (Option BrewBuildImageInspector)) (repo : List (String × RepoBuildRecord)),
    dlookup u repo = some r → dlookup u (sibling_run repo l).1 = some r := by
  intro l
  induction l with
  | nil =>
    intro repo h
    exact h
  | cons ob rest ih =>
    intro repo h
    rw [sibling_run_cons]
    apply ih
    cases ob with
    | none => exact h
    | some b =>
      cases hu : truthyStr b.info.source_git_url with
      | none => simpa [sibling_step, hu] using h
      | some u' =>
        cases hc : truthyStr b.info.source_git_commit with
        | none => simpa [sibling_step, hu, hc] using h
        | some c' =>
          cases hl : dlookup u' repo with
          | some pc =>
            by_cases hne : pc.source_git_commit = c'
            · simpa [sibling_step, hu, hc, hl, hne] using h
            · simpa [sibling_step, hu, hc, hl, hne] using h
          | none =>
            have hne : u' ≠ u := by
              intro hq
              subst hq
              rw [hl] at h
              exact absurd h (by simp)
            rw [show (sibling_step (repo, []) (some b)).1
                = dinsert u' ⟨b, c'⟩ repo from by simp [sibling_step, hu, hc, hl]]
            rw [dlookup_dinsert_ne _ _ hne]
            exact h

theorem dlookup_sibling_run_none (u : String) :
    ∀ (l : List (Option BrewBuildImageInspector)) (repo : List (String × RepoBuildRecord)),
    dlookup u repo = none →
    dlookup u (sibling_run repo l).1 = first_repo_build u l := by
  intro l
  induction l with
  | nil =>
    intro repo h
    exact h
  | cons ob rest ih =>
    intro repo h
    rw [sibling_run_cons]
    cases ob with
    | none =>
      rw [show (sibling_step (repo, []) none).1 = repo from rfl]
      rw [ih repo h]
      rfl
    | some b =>
      cases hu : truthyStr b.info.source_git_url with
      | none =>
        rw [show (sibling_step (repo, []) (some b)).1 = repo from by
          simp [sibling_step, hu]]
        rw [ih repo h]
        simp [first_repo_build, hu]
      | some u2 =>
        cases hc : truthyStr b.info.source_git_commit with
        | none =>
          rw [show (sibling_step (repo, []) (some b)).1 = repo from by
            simp [sibling_step, hu, hc]]
          rw [ih repo h]
          simp [first_repo_build, hu, hc]
        | some c2 =>
          cases hl : dlookup u2 repo with
          | some pc =>
            have hne : u2 ≠ u := by
              intro hq
              subst hq
              rw [hl] at h
              exact absurd h (by simp)
            have hst : (sibling_step (repo, []) (some b)).1 = repo := by
              by_cases he : pc.source_git_commit = c2
              · simp [sibling_step, hu, hc, hl, he]
              · simp [sibling_step, hu, hc, hl, he]
            rw [hst, ih repo h]
            simp [first_repo_build, hu, hc, hne]
          | none =>
            have hst : (sibling_step (repo, []) (some b)).1
                = dinsert u2 ⟨b, c2⟩ repo := by
              simp [sibling_step, hu, hc, hl]
            rw [hst]
            by_cases he : u2 = u
            · subst he
              rw [dlookup_sibling_run_some u2 ⟨b, c2⟩ rest _ (dlookup_dinsert_self _ _ _)]
              simp [first_repo_build, hu, hc]
            · rw [ih _ (by rw [dlookup_dinsert_ne _ _ he]; exact h)]
              simp [first_repo_build, hu, hc, he]

theorem sibling_run_not_mem (u c0 : String) (x : BrewBuildImageInspector)
    (hx : truthyStr x.info.source_git_url = some u) :
    ∀ (l : List (Option BrewBuildImageInspector)) (repo : List (String × RepoBuildRecord)),
    (∀ b c, some b ∈ l → truthyStr b.info.source_git_url = some u →
      truthyStr b.info.source_git_commit = some c → c = c0) →
    (∀ r, dlookup u repo = some r → r.source_git_commit = c0) →
    (∀ u2 r, dlookup u2 repo = some r →
      truthyStr r.build_image_inspector.info.source_git_url = some u2) →
    x ∉ (sibling_run repo l).2 := by
  intro l
  induction l with
  | nil =>
    intro repo _ _ _ hmem
    exact absurd hmem (by simp [sibling_run])
  | cons ob rest ih =>
    intro repo hall inv1 inv2 hmem
    rw [sibling_run_cons] at hmem
    have hall2 : ∀ b c, some b ∈ rest → truthyStr b.info.source_git_url = some u →
        truthyStr b.info.source_git_commit = some c → c = c0 := by
      intro b c hb
      exact hall b c (List.mem_cons_of_mem _ hb)
    cases ob with
    | none =>
      rw [show sibling_step (repo, []) none = (repo, []) from rfl] at hmem
      rw [List.nil_append] at hmem
      exact ih repo hall2 inv1 inv2 hmem
    | some b =>
      cases hu : truthyStr b.info.source_git_url with
      | none =>
        rw [show sibling_step (repo, []) (some b) = (repo, []) from by
          simp [sibling_step, hu]] at hmem
        rw [List.nil_append] at hmem
        exact ih repo hall2 inv1 inv2 hmem
      | some u2 =>
        cases hc : truthyStr b.info.source_git_commit with
        | none =>
          rw [show sibling_step (repo, []) (some b) = (repo, []) from by
            simp [sibling_step, hu, hc]] at hmem
          rw [List.nil_append] at hmem
          exact ih repo hall2 inv1 inv2 hmem
        | some c2 =>
          cases hl : dlookup u2 repo with
          | none =>
            rw [show sibling_step (repo, []) (some b) = (dinsert u2 ⟨b, c2⟩ repo, [])
              from by simp [sibling_step, hu, hc, hl]] at hmem
            rw [List.nil_append] at hmem
            apply ih (dinsert u2 ⟨b, c2⟩ repo) hall2 ?_ ?_ hmem
            · intro r hr
              by_cases he : u2 = u
              · subst he
                rw [dlookup_dinsert_self] at hr
                injection hr with hr2
                subst hr2
                exact hall b c2 (List.mem_cons_self _ _) hu hc
              · rw [dlookup_dinsert_ne _ _ he] at hr
                exact inv1 r hr
            · intro u3 r hr
              by_cases he : u3 = u2
              · subst he
                rw [dlookup_dinsert_self] at hr
                injection hr with hr2
                subst hr2
                exact hu
              · rw [dlookup_dinsert_ne _ _ (fun hq => he hq.symm)] at hr
                exact inv2 u3 r hr
          | some pc =>
            by_cases he : pc.source_git_commit = c2
            · rw [show sibling_step (repo, []) (some b) = (repo, []) from by
                simp [sibling_step, hu, hc, hl, he]] at hmem
              rw [List.nil_append] at hmem
              exact ih repo hall2 inv1 inv2 hmem
            · rw [sibling_step_conflict repo b u2 c2 pc hu hc hl he] at hmem
              by_cases hq : u2 = u
              · subst hq
                have h1 : pc.source_git_commit = c0 := inv1 pc hl
                have h2 : c2 = c0 := hall b c2 (List.mem_cons_self _ _) hu hc
                exact he (h1.trans h2.symm)
              · rcases List.mem_append.mp hmem with hm | hm
                · rcases List.mem_cons.mp hm with hm | hm
                  · subst hm
                    have := inv2 u2 pc hl
                    rw [hx] at this
                    injection this with h3
                    exact hq h3.symm
                  · rcases List.mem_singleton.mp hm with hm
                    subst hm
                    rw [hx] at hu
                    injection hu with h3
                    exact hq h3.symm
                · exact ih repo hall2 inv1 inv2 hm

/-- C3 counterexample: three builds from the same source URL `"u"` with commits
`c1`, `c1`, `c2`. The URL has two distinct commits among its builds, but the
result contains only the first-seen build and the conflicting third build — the
second build, which shares the URL, is absent, so not every build sharing the
URL is reported. -/
theorem C3_counterexample :
    find_mismatched_siblings [some ex_sib1, some ex_sib2, some ex_sib3]
        = [ex_sib1, ex_sib3] ∧
      ex_sib2 ∉ find_mismatched_siblings [some ex_sib1, some ex_sib2, some ex_sib3] ∧
      ex_sib2.info.source_git_url = ex_sib1.info.source_git_url ∧
      ex_sib1.info.source_git_commit ≠ ex_sib3.info.source_git_commit := by
  refine ⟨rfl, ?_, rfl, ?_⟩
  · decide
  · decide

/-- C3 (amended): a later build whose (truthy) source URL matches an earlier
build and whose commit differs from the first-seen build for that URL is
reported together with that first-seen build; but builds sharing the URL whose
commit equals the first-seen commit are not reported — in particular, when all
builds sharing a URL have the same commit, none of them appear in the
result. -/
theorem C3_siblings_amended :
    (∀ (l1 l2 : List (Option BrewBuildImageInspector)) (b : BrewBuildImageInspector)
        (u c : String) (f : RepoBuildRecord),
      truthyStr b.info.source_git_url = some u →
      truthyStr b.info.source_git_commit = some c →
      first_repo_build u l1 = some f →
      f.source_git_commit ≠ c →
      f.build_image_inspector ∈ find_mismatched_siblings (l1 ++ some b :: l2) ∧
        b ∈ find_mismatched_siblings (l1 ++ some b :: l2)) ∧
    (∀ (l : List (Option BrewBuildImageInspector)) (u c0 : String)
        (x : BrewBuildImageInspector),
      truthyStr x.info.source_git_url = some u →
      (∀ b c, some b ∈ l → truthyStr b.info.source_git_url = some u →
        truthyStr b.info.source_git_commit = some c → c = c0) →
      x ∉ find_mismatched_siblings l) := by
  constructor
  · intro l1 l2 b u c f hu hc hf hne
    rw [find_mismatched_siblings_eq_run, sibling_run_append]
    have hrepo : dlookup u (sibling_run [] l1).1 = some f := by
      rw [dlookup_sibling_run_none u l1 [] rfl]
      exact hf
    rw [sibling_run_cons, sibling_step_conflict _ b u c f hu hc hrepo hne]
    constructor
    · apply List.mem_append.mpr
      apply Or.inr
      apply List.mem_append.mpr
      apply Or.inl
      exact List.mem_cons_self _ _
    · apply List.mem_append.mpr
      apply Or.inr
      apply List.mem_append.mpr
      apply Or.inl
      exact List.mem_cons_of_mem _ (List.mem_singleton.mpr rfl)
  · intro l u c0 x hx hall
    rw [find_mismatched_siblings_eq_run]
    apply sibling_run_not_mem u c0 x hx l [] hall
    · intro r hr
      exact absurd hr (by simp [dlookup])
    · intro u2 r hr
      exact absurd hr (by simp [dlookup])

/-- Witness for C3: on the concrete sibling builds, the first-seen build and
the conflicting build are reported, and in an all-same-commit list nothing with
that URL is reported. -/
theorem C3_witness :
    ex_sib1 ∈ find_mismatched_siblings [some ex_sib1, some ex_sib2, some ex_sib3] ∧
      ex_sib3 ∈ find_mismatched_siblings [some ex_sib1, some ex_sib2, some ex_sib3] ∧
      ex_sib3 ∉ find_mismatched_siblings [some ex_sib1, some ex_sib2] := by
  have hall : ∀ b c, some b ∈ [some ex_sib1, some ex_sib2] →
      truthyStr b.info.source_git_url = some "u" →
      truthyStr b.info.source_git_commit = some c → c = "c1" := by
    intro b c hb _ hc
    simp only [List.mem_cons, List.not_mem_nil, or_false] at hb
    rcases hb with hb | hb
    · injection hb with hb2
      subst hb2
      have he : truthyStr ex_sib1.info.source_git_commit = some "c1" := by decide
      rw [he] at hc
      injection hc with hc2
      exact hc2.symm
    · injection hb with hb2
      subst hb2
      have he : truthyStr ex_sib2.info.source_git_commit = some "c1" := by decide
      rw [he] at hc
      injection hc with hc2
      exact hc2.symm
  refine ⟨?_, ?_, ?_⟩
  · exact (C3_siblings_amended.1 [some ex_sib1, some ex_sib2] [] ex_sib3 "u" "c2"
      ⟨ex_sib1, "c1"⟩ rfl rfl rfl (by decide)).1
  · exact (C3_siblings_amended.1 [some ex_sib1, some ex_sib2] [] ex_sib3 "u" "c2"
      ⟨ex_sib1, "c1"⟩ rfl rfl rfl (by decide)).2
  · exact C3_siblings_amended.2 [some ex_sib1, some ex_sib2] "u" "c1" ex_sib3 rfl hall

theorem dlookup_rpm_uses_add_same (m : List (String × List String)) (nvr : String) :
    dlookup (parse_nvr_name nvr) (rpm_uses_add m nvr)
      = some (nvr_set_add ((dlookup (parse_nvr_name nvr) m).getD []) nvr) := by
  simp only [rpm_uses_add]
  cases h : dlookup (parse_nvr_name nvr) m with
  | none =>
    rw [dlookup_dinsert_self]
    rfl
  | some s =>
    rw [dlookup_dinsert_self]
    rfl

theorem dlookup_rpm_uses_add_ne (m : List (String × List String)) (nvr name : String)
    (h : parse_nvr_name nvr ≠ name) :
    dlookup name (rpm_uses_add m nvr) = dlookup name m := by
  simp only [rpm_uses_add]
  cases h2 : dlookup (parse_nvr_name nvr) m with
  | none => exact dlookup_dinsert_ne _ _ h
  | some s => exact dlookup_dinsert_ne _ _ h

theorem nodup_dkeys_rpm_uses_add (m : List (String × List String)) (nvr : String)
    (h : (dkeys m).Nodup) : (dkeys (rpm_uses_add m nvr)).Nodup := by
  simp only [rpm_uses_add]
  cases h2 : dlookup (parse_nvr_name nvr) m with
  | none => exact nodup_dkeys_dinsert h
  | some s => exact nodup_dkeys_dinsert h

theorem dlookup_foldl_rpm_uses_add (name : String) :
    ∀ (l : List String) (m : List (String × List String)),
    dlookup name (l.foldl rpm_uses_add m)
      = match dlookup name m with
        | some s =>
          some ((l.filter (fun v => parse_nvr_name v = name)).foldl nvr_set_add s)
        | none =>
          if (l.filter (fun v => parse_nvr_name v = name)).isEmpty then none
          else some ((l.filter (fun v => parse_nvr_name v = name)).foldl nvr_set_add []) := by
  intro l
  induction l with
  | nil =>
    intro m
    cases h : dlookup name m with
    | none =>
      simp only [List.foldl_nil, List.filter_nil, List.isEmpty_nil, if_true]
      exact h
    | some s =>
      simp only [List.foldl_nil, List.filter_nil]
      exact h
  | cons v rest ih =>
    intro m
    rw [List.foldl_cons, ih (rpm_uses_add m v)]
    by_cases hv : parse_nvr_name v = name
    · rw [List.filter_cons_of_pos (by simp [hv])]
      rw [show dlookup name (rpm_uses_add m v)
          = some (nvr_set_add ((dlookup name m).getD []) v) from by
        rw [← hv]
        exact dlookup_rpm_uses_add_same m v]
      cases h : dlookup name m with
      | none => simp
      | some s => simp
    · rw [List.filter_cons_of_neg (by simp [hv])]
      rw [dlookup_rpm_uses_add_ne m v name hv]

theorem mem_foldl_nvr_set_add (x : String) :
    ∀ (vs s0 : List String), x ∈ vs.foldl nvr_set_add s0 ↔ x ∈ s0 ∨ x ∈ vs := by
  intro vs
  induction vs with
  | nil =>
    intro s0
    simp
  | cons v rest ih =>
    intro s0
    rw [List.foldl_cons, ih]
    unfold nvr_set_add
    by_cases hv : v ∈ s0
    · rw [if_pos hv]
      constructor
      · intro h2
        rcases h2 with h2 | h2
        · exact Or.inl h2
        · exact Or.inr (List.mem_cons_of_mem _ h2)
      · intro h2
        rcases h2 with h2 | h2
        · exact Or.inl h2
        · rcases List.mem_cons.mp h2 with h3 | h3
          · subst h3
            exact Or.inl hv
          · exact Or.inr h3
    · rw [if_neg hv]
      constructor
      · intro h2
        rcases h2 with h2 | h2
        · rcases List.mem_append.mp h2 with h3 | h3
          · exact Or.inl h3
          · exact Or.inr (List.mem_cons.mpr (Or.inl (List.mem_singleton.mp h3)))
        · exact Or.inr (List.mem_cons_of_mem _ h2)
      · intro h2
        rcases h2 with h2 | h2
        · exact Or.inl (List.mem_append.mpr (Or.inl h2))
        · rcases List.mem_cons.mp h2 with h3 | h3
          · exact Or.inl (List.mem_append.mpr (Or.inr (by simp [h3])))
          · exact Or.inr h3

theorem nodup_foldl_nvr_set_add :
    ∀ (vs s0 : List String), s0.Nodup → (vs.foldl nvr_set_add s0).Nodup := by
  intro vs
  induction vs with
  | nil =>
    intro s0 h
    exact h
  | cons v rest ih =>
    intro s0 h
    rw [List.foldl_cons]
    apply ih
    unfold nvr_set_add
    by_cases hv : v ∈ s0
    · rw [if_pos hv]
      exact h
    · rw [if_neg hv]
      simp [List.nodup_append, h, hv]

theorem one_lt_length_foldl_nvr_set_add (vs : List String) :
    1 < (vs.foldl nvr_set_add []).length ↔ ∃ a b, a ∈ vs ∧ b ∈ vs ∧ a ≠ b := by
  have hnd : (vs.foldl nvr_set_add []).Nodup :=
    nodup_foldl_nvr_set_add vs [] List.nodup_nil
  have hm : ∀ x, x ∈ vs.foldl nvr_set_add [] ↔ x ∈ vs := by
    intro x
    rw [mem_foldl_nvr_set_add]
    simp
  constructor
  · intro hlen
    cases hs : vs.foldl nvr_set_add [] with
    | nil =>
      rw [hs] at hlen
      simp at hlen
    | cons a t =>
      cases t with
      | nil =>
        rw [hs] at hlen
        simp at hlen
      | cons b t2 =>
        refine ⟨a, b, ?_, ?_, ?_⟩
        · rw [← hm, hs]
          exact List.mem_cons_self _ _
        · rw [← hm, hs]
          exact List.mem_cons_of_mem _ (List.mem_cons_self _ _)
        · rw [hs] at hnd
          have h2 := List.nodup_cons.mp hnd
          intro hq
          subst hq
          exact h2.1 (List.mem_cons_self _ _)
  · rintro ⟨a, b, ha, hb, hab⟩
    have ha2 : a ∈ vs.foldl nvr_set_add [] := (hm a).mpr ha
    have hb2 : b ∈ vs.foldl nvr_set_add [] := (hm b).mpr hb
    cases hs : vs.foldl nvr_set_add [] with
    | nil =>
      rw [hs] at ha2
      simp at ha2
    | cons x t =>
      cases t with
      | nil =>
        rw [hs] at ha2 hb2
        simp at ha2 hb2
        exact absurd (ha2.trans hb2.symm) hab
      | cons y t2 =>
        simp only [List.length_cons]
        omega

theorem dkeys_filter_subset {β : Type u} (p : String × β → Bool) (l : List (String × β))
    {x : String} (h : x ∈ dkeys (l.filter p)) : x ∈ dkeys l := by
  obtain ⟨q, hq, hqx⟩ := List.mem_map.mp h
  exact List.mem_map.mpr ⟨q, List.mem_of_mem_filter hq, hqx⟩

theorem dlookup_filter {β : Type u} (p : String × β → Bool) (k : String) :
    ∀ (l : List (String × β)), (dkeys l).Nodup →
    dlookup k (l.filter p)
      = match dlookup k l with
        | some v => if p (k, v) then some v else none
        | none => none := by
  intro l
  induction l with
  | nil => intro _; rfl
  | cons q rest ih =>
    intro hN
    obtain ⟨a, b⟩ := q
    rw [dkeys_cons] at hN
    have hN2 := List.nodup_cons.mp hN
    by_cases hk : a = k
    · subst hk
      rw [dlookup_cons_eq b rest rfl]
      by_cases hp : p (a, b) = true
      · rw [List.filter_cons_of_pos hp, dlookup_cons_eq b _ rfl]
        simp [hp]
      · rw [List.filter_cons_of_neg (by simp [hp])]
        have h0 : dlookup a (List.filter p rest) = none := by
          apply dlookup_eq_none
          intro hc
          exact hN2.1 (dkeys_filter_subset p rest hc)
        rw [h0]
        simp [hp]
    · rw [dlookup_cons_ne b rest hk]
      by_cases hp : p (a, b) = true
      · rw [List.filter_cons_of_pos hp, dlookup_cons_ne b _ hk, ih hN2.2]
      · rw [List.filter_cons_of_neg (by simp [hp]), ih hN2.2]

theorem rpm_uses_eq_join :
    ∀ (builds : List RHCOSBuildInspector) (m : List (String × List String)),
    builds.foldl (fun m2 b => b.rpm_nvrs.foldl rpm_uses_add m2) m
      = ((builds.map (fun b => b.rpm_nvrs)).flatten).foldl rpm_uses_add m := by
  intro builds
  induction builds with
  | nil => intro m; rfl
  | cons b rest ih =>
    intro m
    rw [List.foldl_cons, ih, List.map_cons, List.flatten_cons, List.foldl_append]

theorem nvr_occurs_iff_mem_join (v : String) (builds : List RHCOSBuildInspector) :
    nvr_occurs v builds ↔ v ∈ (builds.map (fun b => b.rpm_nvrs)).flatten := by
  rw [List.mem_flatten]
  constructor
  · rintro ⟨b, hb, hv⟩
    exact ⟨b.rpm_nvrs, List.mem_map.mpr ⟨b, hb, rfl⟩, hv⟩
  · rintro ⟨l, hl, hv⟩
    obtain ⟨b, hb, hbl⟩ := List.mem_map.mp hl
    exact ⟨b, hb, hbl ▸ hv⟩

theorem nodup_dkeys_foldl_rpm_uses_add :
    ∀ (l : List String) (m : List (String × List String)),
    (dkeys m).Nodup → (dkeys (l.foldl rpm_uses_add m)).Nodup := by
  intro l
  induction l with
  | nil =>
    intro m h
    exact h
  | cons v rest ih =>
    intro m h
    exact ih _ (nodup_dkeys_rpm_uses_add m v h)

theorem dlookup_rpm_uses (builds : List RHCOSBuildInspector) (name : String) :
    dlookup name
        (builds.foldl (fun m b => b.rpm_nvrs.foldl rpm_uses_add m) [])
      = (if (((builds.map (fun b => b.rpm_nvrs)).flatten.filter
            (fun v => parse_nvr_name v = name))).isEmpty then none
        else some (((builds.map (fun b => b.rpm_nvrs)).flatten.filter
            (fun v => parse_nvr_name v = name)).foldl nvr_set_add [])) := by
  rw [rpm_uses_eq_join]
  rw [dlookup_foldl_rpm_uses_add name ((builds.map (fun b => b.rpm_nvrs)).flatten) []]
  rfl

theorem nodup_dkeys_rpm_uses (builds : List RHCOSBuildInspector) :
    (dkeys (builds.foldl (fun m b => b.rpm_nvrs.foldl rpm_uses_add m) [])).Nodup := by
  rw [rpm_uses_eq_join]
  exact nodup_dkeys_foldl_rpm_uses_add _ [] List.nodup_nil

/-- C5: `find_rhcos_build_rpm_inconsistencies` maps exactly those rpm package
names carrying more than one distinct NVR across all the builds' installed-RPM
lists, each to the full set of its NVRs (an NVR is in the reported set iff it
occurs in some build under that package name); when every package has a single
NVR across all builds, the result is empty. -/
theorem C5_rhcos_rpm_inconsistencies :
    ∀ builds : List RHCOSBuildInspector,
      (∀ name : String,
        (dlookup name (find_rhcos_build_rpm_inconsistencies builds)).isSome ↔
          ∃ v w, nvr_occurs v builds ∧ nvr_occurs w builds ∧
            parse_nvr_name v = name ∧ parse_nvr_name w = name ∧ v ≠ w) ∧
      (∀ name s, dlookup name (find_rhcos_build_rpm_inconsistencies builds) = some s →
        ∀ v, v ∈ s ↔ nvr_occurs v builds ∧ parse_nvr_name v = name) ∧
      ((∀ v w, nvr_occurs v builds → nvr_occurs w builds →
          parse_nvr_name v = parse_nvr_name w → v = w) →
        find_rhcos_build_rpm_inconsistencies builds = []) := by
  intro builds
  have hlook : ∀ name, dlookup name (find_rhcos_build_rpm_inconsistencies builds)
      = match dlookup name
          (builds.foldl (fun m b => b.rpm_nvrs.foldl rpm_uses_add m) []) with
        | some s => if 1 < s.length then some s else none
        | none => none := by
    intro name
    simp only [find_rhcos_build_rpm_inconsistencies]
    rw [dlookup_filter (fun p => decide (1 < p.2.length)) name _
      (nodup_dkeys_rpm_uses builds)]
    cases h : dlookup name
        (builds.foldl (fun m b => b.rpm_nvrs.foldl rpm_uses_add m) []) with
    | none => rfl
    | some s => simp
  refine ⟨?_, ?_, ?_⟩
  · intro name
    rw [hlook name, dlookup_rpm_uses builds name]
    by_cases hE : (((builds.map (fun b => b.rpm_nvrs)).flatten.filter
        (fun v => parse_nvr_name v = name))).isEmpty
    · rw [if_pos hE]
      simp only [Option.isSome_none, Bool.false_eq_true, false_iff]
      rintro ⟨v, w, hv, hw, hpv, hpw, hvw⟩
      have hvJ : v ∈ (builds.map (fun b => b.rpm_nvrs)).flatten :=
        (nvr_occurs_iff_mem_join v builds).mp hv
      have : v ∈ ((builds.map (fun b => b.rpm_nvrs)).flatten.filter
          (fun v2 => parse_nvr_name v2 = name)) :=
        List.mem_filter.mpr ⟨hvJ, by simp [hpv]⟩
      rw [List.isEmpty_iff] at hE
      rw [hE] at this
      exact absurd this (by simp)
    · rw [if_neg hE]
      rw [show (match some (((builds.map (fun b => b.rpm_nvrs)).flatten.filter
            (fun v => parse_nvr_name v = name)).foldl nvr_set_add []) with
          | some s => if 1 < s.length then some s else none
          | none => none)
          = if 1 < (((builds.map (fun b => b.rpm_nvrs)).flatten.filter
              (fun v => parse_nvr_name v = name)).foldl nvr_set_add []).length
            then some (((builds.map (fun b => b.rpm_nvrs)).flatten.filter
              (fun v => parse_nvr_name v = name)).foldl nvr_set_add [])
            else none from rfl]
      by_cases hL : 1 < (((builds.map (fun b => b.rpm_nvrs)).flatten.filter
          (fun v => parse_nvr_name v = name)).foldl nvr_set_add []).length
      · rw [if_pos hL]
        simp only [Option.isSome_some, true_iff]
        obtain ⟨a, b, ha, hb, hab⟩ := (one_lt_length_foldl_nvr_set_add _).mp hL
        have ha2 := List.mem_filter.mp ha
        have hb2 := List.mem_filter.mp hb
        refine ⟨a, b, (nvr_occurs_iff_mem_join a builds).mpr ha2.1,
          (nvr_occurs_iff_mem_join b builds).mpr hb2.1, ?_, ?_, hab⟩
        · have := ha2.2
          simpa using this
        · have := hb2.2
          simpa using this
      · rw [if_neg hL]
        simp only [Option.isSome_none, Bool.false_eq_true, false_iff]
        rintro ⟨v, w, hv, hw, hpv, hpw, hvw⟩
        apply hL
        apply (one_lt_length_foldl_nvr_set_add _).mpr
        refine ⟨v, w, ?_, ?_, hvw⟩
        · exact List.mem_filter.mpr
            ⟨(nvr_occurs_iff_mem_join v builds).mp hv, by simp [hpv]⟩
        · exact List.mem_filter.mpr
            ⟨(nvr_occurs_iff_mem_join w builds).mp hw, by simp [hpw]⟩
  · intro name s hs v
    rw [hlook name, dlookup_rpm_uses builds name] at hs
    by_cases hE : (((builds.map (fun b => b.rpm_nvrs)).flatten.filter
        (fun v => parse_nvr_name v = name))).isEmpty
    · rw [if_pos hE] at hs
      exact absurd hs (by simp)
    · rw [if_neg hE] at hs
      have hs2 : s = ((builds.map (fun b => b.rpm_nvrs)).flatten.filter
          (fun v => parse_nvr_name v = name)).foldl nvr_set_add [] := by
        by_cases hL : 1 < (((builds.map (fun b => b.rpm_nvrs)).flatten.filter
            (fun v => parse_nvr_name v = name)).foldl nvr_set_add []).length
        · simp only [if_pos hL] at hs
          injection hs with hs3
          exact hs3.symm
        · simp only [if_neg hL] at hs
          exact absurd hs (by simp)
      subst hs2
      rw [mem_foldl_nvr_set_add]
      simp only [List.not_mem_nil, false_or]
      rw [List.mem_filter]
      constructor
      · rintro ⟨h1, h2⟩
        exact ⟨(nvr_occurs_iff_mem_join v builds).mpr h1, by simpa using h2⟩
      · rintro ⟨h1, h2⟩
        exact ⟨(nvr_occurs_iff_mem_join v builds).mp h1, by simp [h2]⟩
  · intro hsingle
    simp only [find_rhcos_build_rpm_inconsistencies]
    apply List.filter_eq_nil_iff.mpr
    rintro ⟨n2, s⟩ hmem
    have hls := dlookup_eq_some_of_mem (nodup_dkeys_rpm_uses builds) hmem
    rw [dlookup_rpm_uses builds n2] at hls
    by_cases hE : (((builds.map (fun b => b.rpm_nvrs)).flatten.filter
        (fun v => parse_nvr_name v = n2))).isEmpty
    · rw [if_pos hE] at hls
      exact absurd hls (by simp)
    · rw [if_neg hE] at hls
      have hs2 : s = ((builds.map (fun b => b.rpm_nvrs)).flatten.filter
          (fun v => parse_nvr_name v = n2)).foldl nvr_set_add [] := by
        injection hls with hs3
        exact hs3.symm
      subst hs2
      simp only [decide_eq_true_eq, not_lt]
      by_contra hcon
      push_neg at hcon
      obtain ⟨a, b, ha, hb, hab⟩ := (one_lt_length_foldl_nvr_set_add _).mp hcon
      have ha2 := List.mem_filter.mp ha
      have hb2 := List.mem_filter.mp hb
      apply hab
      apply hsingle a b ((nvr_occurs_iff_mem_join a builds).mpr ha2.1)
        ((nvr_occurs_iff_mem_join b builds).mpr hb2.1)
      have e1 : parse_nvr_name a = n2 := by simpa using ha2.2
      have e2 : parse_nvr_name b = n2 := by simpa using hb2.2
      rw [e1, e2]

/-- Witness for C5: the divergent package `foo` is reported with both NVRs, and
an assembly of identical builds reports nothing. -/
theorem C5_witness :
    ("foo-1.0-1" ∈ ["foo-1.0-1", "foo-1.1-1"] ↔
      nvr_occurs "foo-1.0-1" [ex_rhcos1, ex_rhcos2] ∧
        parse_nvr_name "foo-1.0-1" = "foo") ∧
    find_rhcos_build_rpm_inconsistencies [ex_rhcos1] = [] := by
  constructor
  · exact (C5_rhcos_rpm_inconsistencies [ex_rhcos1, ex_rhcos2]).2.1 "foo"
      ["foo-1.0-1", "foo-1.1-1"] rfl "foo-1.0-1"
  · apply (C5_rhcos_rpm_inconsistencies [ex_rhcos1]).2.2
    intro v w hv hw hp
    obtain ⟨b, hb, hvb⟩ := hv
    obtain ⟨b2, hb2, hwb⟩ := hw
    simp only [List.mem_singleton] at hb hb2
    subst hb
    subst hb2
    have hv2 : v = "foo-1.0-1" ∨ v = "bar-1-1" := by
      simpa [ex_rhcos1] using hvb
    have hw2 : w = "foo-1.0-1" ∨ w = "bar-1-1" := by
      simpa [ex_rhcos1] using hwb
    rcases hv2 with hv2 | hv2 <;> rcases hw2 with hw2 | hw2 <;> subst hv2 <;> subst hw2
    · rfl
    · rw [show parse_nvr_name "foo-1.0-1" = "foo" from rfl,
        show parse_nvr_name "bar-1-1" = "bar" from rfl] at hp
      exact absurd hp (by decide)
    · rw [show parse_nvr_name "foo-1.0-1" = "foo" from rfl,
        show parse_nvr_name "bar-1-1" = "bar" from rfl] at hp
      exact absurd hp (by decide)
    · rfl

theorem retry_release_info_all_fail (fetch : Nat → Option ReleaseInfo)
    (h0 : fetch 0 = none) (h1 : fetch 1 = none) (h2 : fetch 2 = none) :
    retry_release_info fetch 3 0 = none := by
  show retry_release_info fetch (2 + 1) 0 = none
  unfold retry_release_info
  rw [h0]
  show retry_release_info fetch (1 + 1) 1 = none
  unfold retry_release_info
  rw [h1]
  show retry_release_info fetch (0 + 1) 2 = none
  unfold retry_release_info
  rw [h2]
  rfl

theorem retry_release_info_first (fetch : Nat → Option ReleaseInfo) (ri : ReleaseInfo)
    (h0 : fetch 0 = some ri) : retry_release_info fetch 3 0 = some ri := by
  show retry_release_info fetch (2 + 1) 0 = some ri
  unfold retry_release_info
  rw [h0]

/-- C8 counterexample: when all three fetch attempts fail, the nightly checker
returns the terminal issue string as a soft issue list (`Except.ok`), it does
not raise a fatal error. -/
theorem C8_counterexample :
    check_nightly_consistency_core ex_fetch_fail ex_ai_trivial "n" "amd64" true "ps"
        = .ok ["Unable to gather nightly release info details: ps; garbage collected?"]
      ∧ (check_nightly_consistency_core ex_fetch_fail ex_ai_trivial "n" "amd64" true
          "ps").toOption.isSome = true := by
  exact ⟨rfl, rfl⟩

/-- C8 (amended): the nightly's release info is fetched at most 3 times;
exhausting the retries terminates checking of that nightly with a returned
issue string (not an exception); a published tag pullspec lacking the digest
separator raises a fatal error immediately; and a digest mismatch between the
nightly's tag and the independently computed entry is collected as a soft
issue string. -/
theorem C8_nightly_checker_amended :
    (∀ fetch : Nat → Option ReleaseInfo, release_info_attempts fetch 3 0 ≤ 3) ∧
    (∀ (fetch : Nat → Option ReleaseInfo) (ai : AssemblyInspector)
        (nightly arch ps : String),
      fetch 0 = none → fetch 1 = none → fetch 2 = none →
      check_nightly_consistency_core fetch ai nightly arch true ps
        = .ok ["Unable to gather nightly release info details: " ++ ps
            ++ "; garbage collected?"]) ∧
    (∀ (fetch : Nat → Option ReleaseInfo) (ai : AssemblyInspector)
        (nightly arch ps : String) (ri : ReleaseInfo) (t : NightlyTag)
        (m : List (String × PayloadEntry)),
      fetch 0 = some ri → ri.tags = [t] → strContainsAt t.from_name = false →
      find_payload_entries ai arch "" = .ok m →
      check_nightly_consistency_core fetch ai nightly arch true ps
        = .error ("Expected pullspec in " ++ nightly ++ ":" ++ t.name
            ++ " to be sha digest but found invalid: " ++ t.from_name)) ∧
    (∀ (fetch : Nat → Option ReleaseInfo) (ai : AssemblyInspector)
        (nightly arch ps : String) (ri : ReleaseInfo) (t : NightlyTag)
        (m : List (String × PayloadEntry)) (e : PayloadEntry)
        (a : ArchiveImageInspector),
      fetch 0 = some ri → ri.tags = [t] → strContainsAt t.from_name = true →
      find_payload_entries ai arch "" = .ok m →
      dlookup t.name m = some e → e.archive_inspector = some a →
      a.archive_digest ≠ after_last_at t.from_name →
      check_nightly_consistency_core fetch ai nightly arch true ps
        = .ok [nightly ++ " contains " ++ t.name ++ " sha "
            ++ after_last_at t.from_name ++ " but assembly computed archive: "
            ++ toString a.archive_id ++ " and " ++ a.archive_pullspec]) := by
  refine ⟨?_, ?_, ?_, ?_⟩
  · intro fetch
    cases h0 : fetch 0 with
    | some ri => simp [release_info_attempts, h0]
    | none =>
      cases h1 : fetch 1 with
      | some ri => simp [release_info_attempts, h0, h1]
      | none =>
        cases h2 : fetch 2 with
        | some ri => simp [release_info_attempts, h0, h1, h2]
        | none => simp [release_info_attempts, h0, h1, h2]
  · intro fetch ai nightly arch ps h0 h1 h2
    simp only [check_nightly_consistency_core,
      retry_release_info_all_fail fetch h0 h1 h2]
    rfl
  · intro fetch ai nightly arch ps ri t m h0 htags hat hfind
    simp only [check_nightly_consistency_core,
      retry_release_info_first fetch ri h0, htags, List.isEmpty_cons, hfind,
      check_release_tags, hat]
    rfl
  · intro fetch ai nightly arch ps ri t m e a h0 htags hat hfind hle har hne
    simp only [check_nightly_consistency_core,
      retry_release_info_first fetch ri h0, htags, List.isEmpty_cons, hfind,
      check_release_tags, hat, hle, har]
    rw [if_pos hne]
    rfl

/-- Witness for C8: the four behaviours evaluated at concrete fetch oracles and
the concrete assembly `ex_ai_c2`. -/
theorem C8_witness :
    release_info_attempts ex_fetch_fail 3 0 ≤ 3 ∧
    check_nightly_consistency_core ex_fetch_fail ex_ai_c2 "n" "amd64" true "ps"
      = .ok ["Unable to gather nightly release info details: ps; garbage collected?"] ∧
    check_nightly_consistency_core ex_fetch_nodigest ex_ai_c2 "n" "amd64" true "ps"
      = .error "Expected pullspec in n:pod to be sha digest but found invalid: nodigest" ∧
    check_nightly_consistency_core ex_fetch_mismatch ex_ai_c2 "n" "amd64" true "ps"
      = .ok ["n contains pod sha sha256:zz but assembly computed archive: 2 and reg/pod@sha256:pp"] := by
  refine ⟨?_, ?_, ?_, ?_⟩
  · exact C8_nightly_checker_amended.1 ex_fetch_fail
  · exact C8_nightly_checker_amended.2.1 ex_fetch_fail ex_ai_c2 "n" "amd64" "ps"
      rfl rfl rfl
  · exact C8_nightly_checker_amended.2.2.1 ex_fetch_nodigest ex_ai_c2 "n" "amd64" "ps"
      ex_ri_nodigest ⟨"pod", "nodigest"⟩ ex_m_c2_empty rfl rfl (by decide) rfl
  · exact C8_nightly_checker_amended.2.2.2 ex_fetch_mismatch ex_ai_c2 "n" "amd64" "ps"
      ex_ri_mismatch ⟨"pod", "reg@sha256:zz"⟩ ex_m_c2_empty
      (mk_group_payload_entry "" ex_archive_pod) ex_archive_pod
      rfl rfl (by decide) rfl rfl rfl (by decide)
